import Mathlib

/-!
Verification development for a single-file report-viewer program
(`streamlit_app.py`).  The program parses an uploaded JSON document,
sniffs its schema version, resolves a display company name, renders a
summary view and a standalone HTML document, and offers two downloads.

The embedding below models JSON values as an explicit mutual inductive
(`JVal` / `JList` / `JObj`), Python dictionary/sequence operations as
total functions into `Except PyErr`, and the two pure functions plus the
renderer and main flow directly from the source.  Numbers are modelled
as exact decimals `m / 10 ^ e` (mantissa and decimal-exponent), an
idealisation of Python int/float in which `e = 0` plays the int role and
`e > 0` the float role; string case mapping and whitespace are modelled
over their ASCII cores.  The wall-clock timestamp read by the HTML
generator is passed in as an explicit parameter.
-/

mutual

/-- JSON value, with numbers stored as exact decimals `m / 10 ^ e`. -/
inductive JVal where
  | null : JVal
  | bool (b : Bool) : JVal
  | num (m : Int) (e : Nat) : JVal
  | str (s : String) : JVal
  | arr (xs : JList) : JVal
  | obj (kvs : JObj) : JVal

inductive JList where
  | nil : JList
  | cons (v : JVal) (tl : JList) : JList

inductive JObj where
  | nil : JObj
  | cons (k : String) (v : JVal) (tl : JObj) : JObj

end

/-- Python exception kinds that the modelled code can raise. -/
inductive PyErr where
  | attributeError : PyErr
  | typeError : PyErr
  | valueError : PyErr
deriving DecidableEq

/-- Length of a `JList`. -/
def JList.length : JList → Nat
  | .nil => 0
  | .cons _ tl => 1 + tl.length

/-- Length of a `JObj`. -/
def JObj.length : JObj → Nat
  | .nil => 0
  | .cons _ _ tl => 1 + tl.length

/-- First value bound to key `k`, if any (Python dict lookup; documents
built by the parser never carry duplicate keys). -/
def JObj.find : JObj → String → Option JVal
  | .nil, _ => none
  | .cons k v tl, k2 => if k = k2 then some v else tl.find k2

/-- Python truthiness of a JSON value. -/
def truthy : JVal → Bool
  | .null => false
  | .bool b => b
  | .num m _ => m != 0
  | .str s => !s.data.isEmpty
  | .arr xs => match xs with | .nil => false | _ => true
  | .obj kvs => match kvs with | .nil => false | _ => true

/-- Whether a value is a Python mapping. -/
def isObj : JVal → Bool
  | .obj _ => true
  | _ => false

/-- Model of Python `x.get(k, dflt)`: defined on mappings, raises
`AttributeError` on every other value. -/
def pyGet (v : JVal) (k : String) (dflt : JVal) : Except PyErr JVal :=
  match v with
  | .obj kvs => .ok ((kvs.find k).getD dflt)
  | _ => .error .attributeError

/-- Model of Python `x[0]`: head of a sequence, first character of a
string (as a one-character string), `TypeError` otherwise. -/
def pyIndex0 : JVal → Except PyErr JVal
  | .arr (.cons v _) => .ok v
  | .arr .nil => .error .valueError
  | .str s =>
    match s.data with
    | [] => .error .valueError
    | c :: _ => .ok (.str (String.mk [c]))
  | _ => .error .typeError

/-- Membership of a needle `JList`. -/
def jlistMem (needle : String) : JList → Bool
  | .nil => false
  | .cons v tl =>
    match v with
    | .str s => if s = needle then true else jlistMem needle tl
    | _ => jlistMem needle tl

/-- ASCII lower-casing of one character (model of Python case mapping
restricted to its ASCII core). -/
def lowChar (c : Char) : Char :=
  if c.toNat ≥ 65 ∧ c.toNat ≤ 90 then Char.ofNat (c.toNat + 32) else c

/-- ASCII lower-casing of a string. -/
def lowStr (s : String) : String := String.mk (s.data.map lowChar)

/-- Characters treated as whitespace by Python `str.strip` (ASCII core). -/
def isPySpace (c : Char) : Bool :=
  c = ' ' || c = '\t' || c = '\n' || c = '\x0d' || c = '\x0b' || c = '\x0c'

/-- Model of Python `s.strip()`. -/
def pyStrip (s : String) : String :=
  String.mk (((s.data.dropWhile isPySpace).reverse.dropWhile isPySpace).reverse)

/-- Prefix test on character lists. -/
def isPre : List Char → List Char → Bool
  | [], _ => true
  | _ :: _, [] => false
  | p :: ps, c :: cs => if p = c then isPre ps cs else false

/-- Model of Python `s.startswith(p)`. -/
def startsW (s p : String) : Bool := isPre p.data s.data

/-- Model of Python membership of a string in another string. -/
def strSub (needle hay : List Char) : Bool :=
  match hay with
  | [] => needle.isEmpty
  | _ :: tl => if isPre needle hay then true else strSub needle tl

/-- Model of the Python `in` operator as used by the detector:
key membership for mappings, element equality for sequences (the needle
is always a string there), substring test for strings, `TypeError` on
other values. -/
def pyContains (container : JVal) (needle : String) : Except PyErr Bool :=
  match container with
  | .obj kvs => .ok (kvs.find needle).isSome
  | .arr xs => .ok (jlistMem needle xs)
  | .str s => .ok (strSub needle.data s.data)
  | _ => .error .typeError

/-- Placeholder values rejected by the company-name resolver
(`streamlit_app.py` lines 35-37). -/
def blocklist : List String := ["unknown", "n/a", "na", "company", "-", "null"]

/-- First candidate that is a string whose stripped value is non-empty
and not block-listed, returned stripped (the loop of
`resolve_company_name`, lines 32-38). -/
def firstGood : List JVal → Option String
  | [] => none
  | c :: rest =>
    match c with
    | .str c0 =>
      let s := pyStrip c0
      if !s.data.isEmpty && !(blocklist.contains (lowStr s)) then some s
      else firstGood rest
    | _ => firstGood rest

/-- Model of `resolve_company_name` (`streamlit_app.py` lines 17-39). -/
def resolve_company_name (data : JVal) (dflt : String := "Unknown") :
    Except PyErr String :=
  match data with
  | .obj kvs =>
    let r0 := (kvs.find "report_info").getD (.obj .nil)
    let r := if truthy r0 then r0 else .obj .nil
    match pyGet r "company_name" .null with
    | .error e => .error e
    | .ok c1 =>
      match pyGet r "company" .null, pyGet r "entity_name" .null with
      | .ok c2, .ok c3 =>
        let c4 := (kvs.find "company_name").getD .null
        let c5 := (kvs.find "company").getD .null
        let c6 := (kvs.find "entity_name").getD .null
        .ok ((firstGood [c1, c2, c3, c4, c5, c6]).getD dflt)
      | .error e, _ => .error e
      | _, .error e => .error e
  | _ => .ok dflt

/-- Model of `detect_schema_version` (`streamlit_app.py` lines 45-59). -/
def detect_schema_version (data : JVal) : Except PyErr String :=
  match pyGet data "report_info" (.obj .nil) with
  | .error e => .error e
  | .ok ri =>
    match pyGet ri "schema_version" (.str "") with
    | .error e => .error e
    | .ok sv =>
      match sv with
      | .str svs =>
        if startsW svs "5." then .ok "5.0"
        else
          match pyGet data "recurring_payments" .null,
                pyGet data "non_bank_financing" .null with
          | .ok rp, .ok nbf =>
            if truthy rp || truthy nbf then .ok "5.0"
            else
              match pyGet data "accounts" (.arr .nil) with
              | .error e => .error e
              | .ok accounts =>
                if truthy accounts then
                  match pyIndex0 accounts with
                  | .error e => .error e
                  | .ok a0 =>
                    match pyGet a0 "monthly_summary" (.arr .nil) with
                    | .error e => .error e
                    | .ok monthly =>
                      if truthy monthly then
                        match pyIndex0 monthly with
                        | .error e => .error e
                        | .ok m0 =>
                          match pyContains m0 "highest_intraday" with
                          | .error e => .error e
                          | .ok b => if b then .ok "5.0" else .ok "4.0"
                      else .ok "4.0"
                else .ok "4.0"
          | .error e, _ => .error e
          | _, .error e => .error e
      | _ => .error .attributeError

/-- Written from the words of the specification (section 4.2): the four
ordered schema-detection rules, first match wins.  Following the
specification, "non-empty field" in rule 2 is read as the Python
falsy/empty notion the specification itself uses ("treat absent as
empty/falsy"), and rule 3 reads "contains a key" as key membership in a
mapping. -/
def specDetectSchemaVersion (d : JVal) : String :=
  let rule1 : Bool :=
    match d with
    | .obj kvs =>
      match kvs.find "report_info" with
      | some (.obj rkvs) =>
        match rkvs.find "schema_version" with
        | some (.str s) => startsW s "5."
        | _ => false
      | _ => false
    | _ => false
  let rule2 : Bool :=
    match d with
    | .obj kvs =>
      truthy ((kvs.find "recurring_payments").getD .null) ||
        truthy ((kvs.find "non_bank_financing").getD .null)
    | _ => false
  let rule3 : Bool :=
    match d with
    | .obj kvs =>
      match kvs.find "accounts" with
      | some (.arr (.cons a _)) =>
        match a with
        | .obj akvs =>
          match akvs.find "monthly_summary" with
          | some (.arr (.cons m _)) =>
            match m with
            | .obj mkvs => (mkvs.find "highest_intraday").isSome
            | _ => false
          | _ => false
        | _ => false
      | _ => false
    | _ => false
  if rule1 then "5.0" else if rule2 then "5.0" else if rule3 then "5.0"
  else "4.0"

/-- Documents on which the schema detector only meets the field shapes
it can consume: each probed key may be absent, and when present must
carry the shape the code dereferences (a mapping `report_info`, a string
`schema_version`, a sequence of mappings under `accounts`, a sequence
whose head is a mapping under `monthly_summary`).  Every document whose
probed keys are simply absent satisfies this. -/
def detectSafe (d : JVal) : Bool :=
  match d with
  | .obj kvs =>
    (match kvs.find "report_info" with
     | none => true
     | some (.obj rkvs) =>
       (match rkvs.find "schema_version" with
        | none => true
        | some (.str _) => true
        | some _ => false)
     | some _ => false)
    &&
    (match kvs.find "accounts" with
     | none => true
     | some (.arr .nil) => true
     | some (.arr (.cons a _)) =>
       (match a with
        | .obj akvs =>
          (match akvs.find "monthly_summary" with
           | none => true
           | some (.arr .nil) => true
           | some (.arr (.cons m _)) => isObj m
           | some _ => false)
        | _ => false)
     | some _ => false)
  | _ => false

/-- Written from the words of the specification (section 4.1): ordered
candidate probing for the company name. -/
def specResolveCompanyName (d : JVal) (dflt : String) : String :=
  match d with
  | .obj kvs =>
    let r : JObj :=
      match kvs.find "report_info" with
      | some (.obj rkvs) => rkvs
      | _ => .nil
    (firstGood
      [ (r.find "company_name").getD .null,
        (r.find "company").getD .null,
        (r.find "entity_name").getD .null,
        (kvs.find "company_name").getD .null,
        (kvs.find "company").getD .null,
        (kvs.find "entity_name").getD .null ]).getD dflt
  | _ => dflt

/-- Documents on which the resolver does not dereference a truthy
non-mapping `report_info` (every non-mapping document, and every mapping
whose `report_info` is absent, falsy or itself a mapping). -/
def resolveSafe (d : JVal) : Bool :=
  match d with
  | .obj kvs =>
    match kvs.find "report_info" with
    | none => true
    | some v => !truthy v || isObj v
  | _ => true

/-- Evaluation fact: the empty string does not start with "5.". -/
theorem startsW_five_empty : startsW "" "5." = false := rfl

/-- Evaluation fact: an empty sequence is falsy. -/
theorem truthy_arr_nil : truthy (.arr .nil) = false := rfl

/-- Evaluation fact: a non-empty sequence is truthy. -/
theorem truthy_arr_cons (v : JVal) (tl : JList) :
    truthy (.arr (.cons v tl)) = true := rfl

/-- On safe documents the detector returns normally with exactly the
value computed by the four specification rules. -/
theorem detect_eq_spec (d : JVal) (h : detectSafe d = true) :
    detect_schema_version d = .ok (specDetectSchemaVersion d) := by
  cases d with
  | obj kvs =>
    simp only [detectSafe, Bool.and_eq_true] at h
    obtain ⟨h1, h2⟩ := h
    rcases hri : kvs.find "report_info" with _ | ri <;> rw [hri] at h1
    case none =>
      rcases hacc : kvs.find "accounts" with _ | acc <;> rw [hacc] at h2
      case none =>
        simp only [detect_schema_version, specDetectSchemaVersion, pyGet,
          hri, hacc, Option.getD, JObj.find, truthy_arr_nil, truthy_arr_cons, startsW_five_empty,
          Bool.false_eq_true, if_false]
        split_ifs <;> rfl
      case some =>
        rcases acc with _ | _ | ⟨m, e⟩ | s | xs | okvs <;> try simp at h2
        rcases xs with _ | ⟨a, tl⟩
        · simp only [detect_schema_version, specDetectSchemaVersion, pyGet,
            hri, hacc, Option.getD, JObj.find, startsW_five_empty,
            truthy_arr_nil, Bool.false_eq_true, if_false]
          split_ifs <;> rfl
        · simp at h2
          rcases a with _ | _ | _ | _ | _ | akvs <;> try simp at h2
          rcases hmon : akvs.find "monthly_summary" with _ | mon <;>
            rw [hmon] at h2
          case none =>
            simp only [detect_schema_version, specDetectSchemaVersion, pyGet,
              hri, hacc, hmon, Option.getD, JObj.find, startsW_five_empty,
              truthy_arr_nil, truthy_arr_cons, pyIndex0, Bool.false_eq_true,
              if_false, if_true]
            split_ifs <;> rfl
          case some =>
            rcases mon with _ | _ | _ | _ | ms | _ <;> try simp at h2
            rcases ms with _ | ⟨m0, tl2⟩
            · simp only [detect_schema_version, specDetectSchemaVersion,
                pyGet, hri, hacc, hmon, Option.getD, JObj.find,
                startsW_five_empty, truthy_arr_nil, truthy_arr_cons,
                pyIndex0, Bool.false_eq_true, if_false, if_true]
              split_ifs <;> rfl
            · simp only [isObj] at h2
              rcases m0 with _ | _ | _ | _ | _ | mkvs <;> try simp at h2
              simp only [detect_schema_version, specDetectSchemaVersion,
                pyGet, hri, hacc, hmon, Option.getD, JObj.find,
                startsW_five_empty, truthy_arr_nil, truthy_arr_cons,
                pyIndex0, pyContains, Bool.false_eq_true, if_false, if_true]
              split_ifs <;> rfl
    case some =>
      rcases ri with _ | _ | _ | _ | _ | rkvs <;> try simp at h1
      rcases hsv : rkvs.find "schema_version" with _ | sv <;> rw [hsv] at h1
      all_goals
        rcases hacc : kvs.find "accounts" with _ | acc <;> rw [hacc] at h2
      case none.none =>
        simp only [detect_schema_version, specDetectSchemaVersion, pyGet,
          hri, hsv, hacc, Option.getD, JObj.find, truthy_arr_nil, truthy_arr_cons, startsW_five_empty,
          Bool.false_eq_true, if_false]
        split_ifs <;> rfl
      case some.none =>
        rcases sv with _ | _ | _ | s | _ | _ <;> try simp at h1
        simp only [detect_schema_version, specDetectSchemaVersion, pyGet,
          hri, hsv, hacc, Option.getD, JObj.find, truthy_arr_nil, truthy_arr_cons, Bool.false_eq_true,
          if_false]
        split_ifs <;> rfl
      case none.some =>
        rcases acc with _ | _ | ⟨m, e⟩ | s | xs | okvs <;> try simp at h2
        rcases xs with _ | ⟨a, tl⟩
        · simp only [detect_schema_version, specDetectSchemaVersion, pyGet,
            hri, hsv, hacc, Option.getD, JObj.find, startsW_five_empty,
            truthy_arr_nil, Bool.false_eq_true, if_false]
          split_ifs <;> rfl
        · simp at h2
          rcases a with _ | _ | _ | _ | _ | akvs <;> try simp at h2
          rcases hmon : akvs.find "monthly_summary" with _ | mon <;>
            rw [hmon] at h2
          case none =>
            simp only [detect_schema_version, specDetectSchemaVersion, pyGet,
              hri, hsv, hacc, hmon, Option.getD, JObj.find,
              startsW_five_empty, truthy_arr_nil, truthy_arr_cons, pyIndex0,
              Bool.false_eq_true, if_false, if_true]
            split_ifs <;> rfl
          case some =>
            rcases mon with _ | _ | _ | _ | ms | _ <;> try simp at h2
            rcases ms with _ | ⟨m0, tl2⟩
            · simp only [detect_schema_version, specDetectSchemaVersion,
                pyGet, hri, hsv, hacc, hmon, Option.getD, JObj.find,
                startsW_five_empty, truthy_arr_nil, truthy_arr_cons,
                pyIndex0, Bool.false_eq_true, if_false, if_true]
              split_ifs <;> rfl
            · simp only [isObj] at h2
              rcases m0 with _ | _ | _ | _ | _ | mkvs <;> try simp at h2
              simp only [detect_schema_version, specDetectSchemaVersion,
                pyGet, hri, hsv, hacc, hmon, Option.getD, JObj.find,
                startsW_five_empty, truthy_arr_nil, truthy_arr_cons,
                pyIndex0, pyContains, Bool.false_eq_true, if_false, if_true]
              split_ifs <;> rfl
      case some.some =>
        rcases sv with _ | _ | _ | s | _ | _ <;> try simp at h1
        rcases acc with _ | _ | ⟨m, e⟩ | s2 | xs | okvs <;> try simp at h2
        rcases xs with _ | ⟨a, tl⟩
        · simp only [detect_schema_version, specDetectSchemaVersion, pyGet,
            hri, hsv, hacc, Option.getD, JObj.find, truthy_arr_nil,
            Bool.false_eq_true, if_false]
          split_ifs <;> rfl
        · simp at h2
          rcases a with _ | _ | _ | _ | _ | akvs <;> try simp at h2
          rcases hmon : akvs.find "monthly_summary" with _ | mon <;>
            rw [hmon] at h2
          case none =>
            simp only [detect_schema_version, specDetectSchemaVersion, pyGet,
              hri, hsv, hacc, hmon, Option.getD, JObj.find, truthy_arr_nil,
              truthy_arr_cons, pyIndex0, Bool.false_eq_true, if_false,
              if_true]
            split_ifs <;> rfl
          case some =>
            rcases mon with _ | _ | _ | _ | ms | _ <;> try simp at h2
            rcases ms with _ | ⟨m0, tl2⟩
            · simp only [detect_schema_version, specDetectSchemaVersion,
                pyGet, hri, hsv, hacc, hmon, Option.getD, JObj.find,
                truthy_arr_nil, truthy_arr_cons, pyIndex0,
                Bool.false_eq_true, if_false, if_true]
              split_ifs <;> rfl
            · simp only [isObj] at h2
              rcases m0 with _ | _ | _ | _ | _ | mkvs <;> try simp at h2
              simp only [detect_schema_version, specDetectSchemaVersion,
                pyGet, hri, hsv, hacc, hmon, Option.getD, JObj.find,
                truthy_arr_nil, truthy_arr_cons, pyIndex0, pyContains,
                Bool.false_eq_true, if_false, if_true]
              split_ifs <;> rfl
  | null => simp [detectSafe] at h
  | bool b => simp [detectSafe] at h
  | num m e => simp [detectSafe] at h
  | str s => simp [detectSafe] at h
  | arr xs => simp [detectSafe] at h

/-- Evaluation fact: an empty mapping is falsy. -/
theorem truthy_obj_nil : truthy (.obj .nil) = false := rfl

/-- Evaluation fact: a non-empty mapping is truthy. -/
theorem truthy_obj_cons (k : String) (v : JVal) (tl : JObj) :
    truthy (.obj (.cons k v tl)) = true := rfl

/-- The specification rules only ever produce the two version strings. -/
theorem specDetect_two (d : JVal) :
    specDetectSchemaVersion d = "5.0" ∨ specDetectSchemaVersion d = "4.0" := by
  unfold specDetectSchemaVersion
  dsimp only
  split_ifs <;> simp

/-- A candidate accepted by the resolver loop is non-empty after
stripping and is not block-listed. -/
theorem firstGood_ok (cs : List JVal) (s : String) (h : firstGood cs = some s) :
    s.data.isEmpty = false ∧ blocklist.contains (lowStr s) = false := by
  induction cs with
  | nil => simp [firstGood] at h
  | cons c rest ih =>
    cases c with
    | str c0 =>
      simp only [firstGood] at h
      by_cases hc : (!(pyStrip c0).data.isEmpty &&
          !(blocklist.contains (lowStr (pyStrip c0)))) = true
      · rw [if_pos hc] at h
        obtain ⟨hc1, hc2⟩ := Bool.and_eq_true_iff.mp hc
        cases h
        constructor
        · simpa using hc1
        · simpa using hc2
      · rw [if_neg hc] at h
        exact ih h
    | null => exact ih (by simpa [firstGood] using h)
    | bool b => exact ih (by simpa [firstGood] using h)
    | num m e => exact ih (by simpa [firstGood] using h)
    | arr xs => exact ih (by simpa [firstGood] using h)
    | obj kvs => exact ih (by simpa [firstGood] using h)

/-- On safe documents the resolver returns normally with exactly the
value computed by the specification candidate chain. -/
theorem resolve_eq_spec (d : JVal) (dflt : String) (h : resolveSafe d = true) :
    resolve_company_name d dflt = .ok (specResolveCompanyName d dflt) := by
  cases d with
  | obj kvs =>
    simp only [resolveSafe] at h
    rcases hri : kvs.find "report_info" with _ | v <;> rw [hri] at h
    case none =>
      simp [resolve_company_name, specResolveCompanyName, hri, pyGet,
        JObj.find, truthy_obj_nil]
    case some =>
      rcases v with _ | b | ⟨m, e⟩ | s | xs | rkvs
      · simp [resolve_company_name, specResolveCompanyName, hri, pyGet,
          JObj.find, truthy, truthy_obj_nil]
      · simp only [truthy, isObj, Bool.or_false] at h
        have hb : b = false := by simpa using h
        subst hb
        simp [resolve_company_name, specResolveCompanyName, hri, pyGet,
          JObj.find, truthy, truthy_obj_nil]
      · simp only [truthy, isObj, Bool.or_false] at h
        have hm : m = 0 := by simpa using h
        subst hm
        simp [resolve_company_name, specResolveCompanyName, hri, pyGet,
          JObj.find, truthy, truthy_obj_nil]
      · simp only [truthy, isObj, Bool.or_false] at h
        have hs : s.data.isEmpty = true := by simpa using h
        simp [resolve_company_name, specResolveCompanyName, hri, pyGet,
          JObj.find, truthy, truthy_obj_nil, hs]
      · rcases xs with _ | ⟨v0, tl⟩
        · simp [resolve_company_name, specResolveCompanyName, hri, pyGet,
            JObj.find, truthy, truthy_obj_nil]
        · simp [truthy, isObj] at h
      · rcases rkvs with _ | ⟨k0, v0, tl⟩
        · simp [resolve_company_name, specResolveCompanyName, hri, pyGet,
            JObj.find, truthy_obj_nil]
        · simp [resolve_company_name, specResolveCompanyName, hri, pyGet,
            JObj.find, truthy_obj_cons]
  | null => simp [resolve_company_name, specResolveCompanyName]
  | bool b => simp [resolve_company_name, specResolveCompanyName]
  | num m e => simp [resolve_company_name, specResolveCompanyName]
  | str s => simp [resolve_company_name, specResolveCompanyName]
  | arr xs => simp [resolve_company_name, specResolveCompanyName]

/-- The outcome of the accepting step of the resolver, as a function of
the probed candidate list: either the default came back (and a different
default would come back equally), or an accepted candidate came back,
independent of the default and never block-listed. -/
theorem getD_shape (l : List JVal) (dflt dflt2 s : String)
    (h : (firstGood l).getD dflt = s) :
    (s = dflt ∧ (firstGood l).getD dflt2 = dflt2) ∨
    ((firstGood l).getD dflt2 = s ∧ s.data.isEmpty = false ∧
      blocklist.contains (lowStr s) = false) := by
  rcases hfg : firstGood l with _ | s0
  · rw [hfg] at h
    simp only [Option.getD] at h
    left
    exact ⟨h.symm, by simp [hfg]⟩
  · rw [hfg] at h
    simp only [Option.getD] at h
    right
    subst h
    exact ⟨by simp [hfg], firstGood_ok l s0 hfg⟩

/-- When the resolver returns normally, the returned string is either
the supplied default (in which case any other default would equally be
returned) or an accepted candidate (in which case the same candidate is
returned for any default and the result is never block-listed). -/
theorem resolve_ok_shape (d : JVal) (dflt dflt2 s : String)
    (h : resolve_company_name d dflt = .ok s) :
    (s = dflt ∧ resolve_company_name d dflt2 = .ok dflt2) ∨
    (resolve_company_name d dflt2 = .ok s ∧ s.data.isEmpty = false ∧
      blocklist.contains (lowStr s) = false) := by
  cases d with
  | obj kvs =>
    rcases hri : kvs.find "report_info" with _ | v
    · simp only [resolve_company_name, hri, pyGet, JObj.find, Option.getD,
        truthy_obj_nil, Bool.false_eq_true, if_false, Except.ok.injEq] at h ⊢
      simpa using getD_shape _ dflt dflt2 s h
    · cases v with
      | null =>
        simp only [resolve_company_name, hri, pyGet, JObj.find, Option.getD,
          truthy, Bool.false_eq_true, if_false, Except.ok.injEq] at h ⊢
        simpa using getD_shape _ dflt dflt2 s h
      | bool b =>
        cases b
        · simp only [resolve_company_name, hri, pyGet, JObj.find,
            Option.getD, truthy, Bool.false_eq_true, if_false,
            Except.ok.injEq] at h ⊢
          simpa using getD_shape _ dflt dflt2 s h
        · simp [resolve_company_name, hri, pyGet, truthy] at h
      | num m e =>
        by_cases hm : m = 0
        · subst hm
          simp only [resolve_company_name, hri, pyGet, JObj.find,
            Option.getD, truthy, bne_self_eq_false, Bool.false_eq_true,
            if_false, Except.ok.injEq] at h ⊢
          simpa using getD_shape _ dflt dflt2 s h
        · simp [resolve_company_name, hri, pyGet, truthy, hm] at h
      | str s0 =>
        by_cases hs : s0.data.isEmpty
        · simp only [resolve_company_name, hri, pyGet, JObj.find,
            Option.getD, truthy, hs, Bool.not_true, Bool.false_eq_true,
            if_false, Except.ok.injEq] at h ⊢
          simpa using getD_shape _ dflt dflt2 s h
        · simp [resolve_company_name, hri, pyGet, truthy, hs] at h
      | arr xs =>
        cases xs with
        | nil =>
          simp only [resolve_company_name, hri, pyGet, JObj.find,
            Option.getD, truthy, Bool.false_eq_true, if_false,
            Except.ok.injEq] at h ⊢
          simpa using getD_shape _ dflt dflt2 s h
        | cons v0 tl =>
          simp [resolve_company_name, hri, pyGet, truthy] at h
      | obj rkvs =>
        cases rkvs with
        | nil =>
          simp only [resolve_company_name, hri, pyGet, JObj.find,
            Option.getD, truthy_obj_nil, Bool.false_eq_true, if_false,
            Except.ok.injEq] at h ⊢
          simpa using getD_shape _ dflt dflt2 s h
        | cons k0 v0 tl =>
          simp only [resolve_company_name, hri, pyGet, JObj.find,
            Option.getD, truthy_obj_cons, if_true, Except.ok.injEq] at h ⊢
          simpa using getD_shape _ dflt dflt2 s h
  | null => left; simp_all [resolve_company_name]
  | bool b => left; simp_all [resolve_company_name]
  | num m e => left; simp_all [resolve_company_name]
  | str s0 => left; simp_all [resolve_company_name]
  | arr xs => left; simp_all [resolve_company_name]

/-- Whenever the detector returns normally, the result is one of the two
version strings. -/
theorem detect_ok_two (d : JVal) (v : String)
    (h : detect_schema_version d = .ok v) : v = "5.0" ∨ v = "4.0" := by
  unfold detect_schema_version at h
  repeat' split at h
  all_goals simp_all

/-- Document whose `report_info.schema_version` is the string "5.2". -/
def docSchema52 : JVal :=
  .obj (.cons "report_info"
    (.obj (.cons "schema_version" (.str "5.2") .nil)) .nil)

/-- Document whose `report_info.schema_version` is the number 5. -/
def docNumVersion : JVal :=
  .obj (.cons "report_info"
    (.obj (.cons "schema_version" (.num 5 0) .nil)) .nil)

/-- Document whose `report_info` is the string "Acme Corp". -/
def docStrReportInfo : JVal :=
  .obj (.cons "report_info" (.str "Acme Corp") .nil)

/-- Document whose `report_info` is the one-element list [1]. -/
def docListReportInfo : JVal :=
  .obj (.cons "report_info" (.arr (.cons (.num 1 0) .nil)) .nil)

/-- Document with a non-empty `recurring_payments` list and nothing else. -/
def docRecurring : JVal :=
  .obj (.cons "recurring_payments" (.arr (.cons (.num 1 0) .nil)) .nil)

/-- Document with a nested company name (padded with spaces) and a
competing top-level `company` key. -/
def docAcme : JVal :=
  .obj (.cons "report_info"
    (.obj (.cons "company_name" (.str "  Acme Corp  ") .nil))
    (.cons "company" (.str "Other") .nil))

-- scratch sanity examples (spec section 8), removed in the final file
example : detect_schema_version docSchema52 = .ok "5.0" := rfl
example : detect_schema_version docRecurring = .ok "5.0" := rfl
example : detect_schema_version (.obj .nil) = .ok "4.0" := rfl
example :
    detect_schema_version (.obj (.cons "accounts" (.arr (.cons
      (.obj (.cons "monthly_summary" (.arr (.cons
        (.obj (.cons "highest_intraday" (.num 100 0) .nil)) .nil)) .nil))
      .nil)) .nil)) = .ok "5.0" := rfl
example :
    detect_schema_version (.obj (.cons "accounts" (.arr (.cons
      (.obj (.cons "monthly_summary" (.arr (.cons
        (.obj (.cons "highest" (.num 100 0) .nil)) .nil)) .nil))
      .nil)) .nil)) = .ok "4.0" := rfl
example : resolve_company_name docAcme "Unknown" = .ok "Acme Corp" := rfl
example :
    resolve_company_name (.obj (.cons "report_info"
      (.obj (.cons "company_name" (.str "UNKNOWN") .nil)) .nil)) "Company" =
    .ok "Company" := rfl
example : resolve_company_name docStrReportInfo "Unknown" =
    .error .attributeError := rfl
example : detect_schema_version docNumVersion = .error .attributeError := rfl

/-- Claim C1, as stated, is false on the code: on a document whose
`schema_version` is the number 5 the four rules prescribe the answer
"4.0" (rule 1 requires a string), but `detect_schema_version` raises
`AttributeError` instead of returning. -/
theorem c1_counterexample :
    detect_schema_version docNumVersion = .error .attributeError ∧
    specDetectSchemaVersion docNumVersion = "4.0" := ⟨rfl, rfl⟩

/-- Claim C1 (amended): on every document whose probed fields are absent
or carry the shapes the detector dereferences, `detect_schema_version`
returns normally with exactly the value of the four ordered
specification rules, first match wins; and whenever it returns normally
at all, the result is one of "5.0" and "4.0". -/
theorem c1_detect_rules (d : JVal) (h : detectSafe d = true) :
    detect_schema_version d = .ok (specDetectSchemaVersion d) ∧
    (specDetectSchemaVersion d = "5.0" ∨ specDetectSchemaVersion d = "4.0") ∧
    (∀ v, detect_schema_version d = .ok v → v = "5.0" ∨ v = "4.0") :=
  ⟨detect_eq_spec d h, specDetect_two d, fun v hv => detect_ok_two d v hv⟩

/-- Witness for C1 at the document with `schema_version` "5.2". -/
theorem c1_detect_rules_witness :
    detectSafe docSchema52 = true ∧
    detect_schema_version docSchema52 = .ok "5.0" ∧
    detect_schema_version docSchema52 =
      .ok (specDetectSchemaVersion docSchema52) :=
  ⟨rfl, rfl, (c1_detect_rules docSchema52 rfl).1⟩

/-- Claim C2, as stated, is false on the code: on the mapping whose
`report_info` is the string "Acme Corp" no candidate qualifies, so the
claimed algorithm returns the default, but `resolve_company_name`
raises `AttributeError` instead. -/
theorem c2_counterexample :
    resolve_company_name docStrReportInfo "Unknown" =
      .error .attributeError ∧
    specResolveCompanyName docStrReportInfo "Unknown" = "Unknown" :=
  ⟨rfl, rfl⟩

/-- Claim C2 (amended): every non-mapping input resolves to the supplied
default, and on every document whose `report_info` is absent, falsy or a
mapping, `resolve_company_name` returns normally with exactly the value
of the specification candidate chain: the six candidates probed in
priority order, the first stripped, non-empty, non-block-listed string
returned stripped, the default otherwise. -/
theorem c2_resolver_chain (d : JVal) (dflt : String)
    (h : resolveSafe d = true) :
    resolve_company_name d dflt = .ok (specResolveCompanyName d dflt) ∧
    (isObj d = false → resolve_company_name d dflt = .ok dflt) := by
  refine ⟨resolve_eq_spec d dflt h, fun hn => ?_⟩
  cases d <;> simp_all [resolve_company_name, isObj]

/-- Witness for C2 at a document with a padded nested company name and a
competing top-level `company` key, and at a non-mapping input. -/
theorem c2_resolver_chain_witness :
    resolveSafe docAcme = true ∧
    resolve_company_name docAcme "Unknown" = .ok "Acme Corp" ∧
    resolve_company_name docAcme "Unknown" =
      .ok (specResolveCompanyName docAcme "Unknown") ∧
    resolve_company_name (.num 3 0) "Unknown" = .ok "Unknown" :=
  ⟨rfl, rfl, (c2_resolver_chain docAcme "Unknown" rfl).1,
    (c2_resolver_chain (.num 3 0) "Unknown" rfl).2 rfl⟩

/-- Claim C3: on the mapping whose `report_info` is the list [1] (a
recognized field with an unexpected type) both functions raise
`AttributeError` instead of degrading to their defaults. -/
theorem c3_type_mismatch_raises :
    resolve_company_name docListReportInfo "Unknown" =
      .error .attributeError ∧
    detect_schema_version docListReportInfo = .error .attributeError :=
  ⟨rfl, rfl⟩

/-- Claim C5: the detector never fails on missing keys: any document
whose probed keys are absent (or well-shaped where present) yields a
normal return of one of the two version strings; key absence at both
probed top-level spots satisfies the shape condition by itself, and the
empty document yields "4.0". -/
theorem c5_missing_keys (d : JVal) (h : detectSafe d = true) :
    (∃ v, detect_schema_version d = .ok v ∧ (v = "5.0" ∨ v = "4.0")) ∧
    detect_schema_version (.obj .nil) = .ok "4.0" ∧
    (∀ kvs : JObj, kvs.find "report_info" = none →
      kvs.find "accounts" = none → detectSafe (.obj kvs) = true) := by
  refine ⟨⟨specDetectSchemaVersion d, detect_eq_spec d h, specDetect_two d⟩,
    rfl, fun kvs h1 h2 => ?_⟩
  simp [detectSafe, h1, h2]

/-- Witness for C5 at the document carrying only `recurring_payments`. -/
theorem c5_missing_keys_witness :
    detectSafe docRecurring = true ∧
    detect_schema_version docRecurring = .ok "5.0" ∧
    (∃ v, detect_schema_version docRecurring = .ok v ∧
      (v = "5.0" ∨ v = "4.0")) :=
  ⟨rfl, rfl, (c5_missing_keys docRecurring rfl).1⟩

/-- Sequencing of modelled Python computations (exception propagation). -/
def ebind (x : Except PyErr α) (f : α → Except PyErr β) : Except PyErr β :=
  match x with
  | .error e => .error e
  | .ok a => f a

/-- Evaluation rule for `ebind` on a normal value. -/
theorem ebind_ok (a : α) (f : α → Except PyErr β) : ebind (.ok a) f = f a :=
  rfl

/-- Evaluation rule for `ebind` on an exception. -/
theorem ebind_error (e : PyErr) (f : α → Except PyErr β) :
    ebind (.error e) f = .error e := rfl

/-- Decimal digit character. -/
def digitChar (n : Nat) : Char := Char.ofNat (48 + n)

/-- Fuelled loop producing the base-10 digits of a natural number. -/
def natDigitsGo : Nat → Nat → List Char → List Char
  | 0, _, acc => acc
  | fuel + 1, n, acc =>
    if n < 10 then digitChar n :: acc
    else natDigitsGo fuel (n / 10) (digitChar (n % 10) :: acc)

/-- Base-10 digits of a natural number, most significant first. -/
def natDigits (n : Nat) : List Char := natDigitsGo (n + 1) n []

/-- Decimal rendering of the exact decimal `m / 10 ^ e`, mirroring the
Python text of an int (`e = 0`) or a float printed with `e` digits
after the point (`e > 0`). -/
def decStr (m : Int) (e : Nat) : List Char :=
  let ds := natDigits m.natAbs
  let sign : List Char := if m < 0 then ['-'] else []
  if e = 0 then sign ++ ds
  else
    let ds2 := List.replicate (e + 1 - ds.length) '0' ++ ds
    sign ++ (ds2.take (ds2.length - e) ++ '.' :: ds2.drop (ds2.length - e))

/-- Integer power of ten. -/
def pTen : Nat → Int
  | 0 => 1
  | e + 1 => 10 * pTen e

/-- Round half to even of the exact decimal `m / 10 ^ e` (the rounding
Python fixed-point formatting applies). -/
def rhe (m : Int) (e : Nat) : Int :=
  let d := pTen e
  let q := Int.ediv m d
  let r := Int.emod m d
  if 2 * r < d then q
  else if 2 * r > d then q + 1
  else if Int.emod q 2 = 0 then q else q + 1

/-- Text of an integer. -/
def intStr (n : Int) : List Char :=
  (if n < 0 then ['-'] else []) ++ natDigits n.natAbs

/-- Text produced by Python `format(x, ".0f")` on the exact decimal
`m / 10 ^ e` (including the negative-zero case). -/
def fmtF0 (m : Int) (e : Nat) : String :=
  let n := rhe m e
  if m < 0 ∧ n = 0 then "-0" else String.mk (intStr n)

/-- Model of the f-string conversion `{x:.0f}`: defined on numbers (and
booleans, which Python treats as integers), `ValueError` on strings,
`TypeError` otherwise. -/
def pyFormatF0 : JVal → Except PyErr String
  | .num m e => .ok (fmtF0 m e)
  | .bool true => .ok "1"
  | .bool false => .ok "0"
  | .str _ => .error .valueError
  | _ => .error .typeError

/-- Escaping used in the modelled Python `repr` of a string (ASCII
core: backslash, quote, and the three common control characters). -/
def reprEscChar (c : Char) : List Char :=
  if c = '\\' then ['\\', '\\']
  else if c = '\x27' then ['\\', '\x27']
  else if c = '\n' then ['\\', 'n']
  else if c = '\x0d' then ['\\', 'r']
  else if c = '\t' then ['\\', 't']
  else [c]

/-- Escaping of a character list for the modelled `repr`. -/
def reprEsc (l : List Char) : List Char :=
  l.foldr (fun c acc => reprEscChar c ++ acc) []

/-- Modelled `repr` of a string (single-quoted). -/
def strRepr (s : String) : String :=
  "\x27" ++ String.mk (reprEsc s.data) ++ "\x27"

mutual

/-- Model of Python `repr` on JSON-shaped values (single-quoted strings,
bracketed containers), used by `str` on containers. -/
def pyRepr : JVal → String
  | .null => "None"
  | .bool true => "True"
  | .bool false => "False"
  | .num m e => String.mk (decStr m e)
  | .str s => strRepr s
  | .arr xs => "[" ++ pyReprList xs ++ "]"
  | .obj kvs => "\x7b" ++ pyReprObj kvs ++ "\x7d"

/-- Comma-separated `repr` of sequence elements. -/
def pyReprList : JList → String
  | .nil => ""
  | .cons v .nil => pyRepr v
  | .cons v tl => pyRepr v ++ ", " ++ pyReprList tl

/-- Comma-separated `repr` of mapping items. -/
def pyReprObj : JObj → String
  | .nil => ""
  | .cons k v .nil => strRepr k ++ ": " ++ pyRepr v
  | .cons k v tl => strRepr k ++ ": " ++ pyRepr v ++ ", " ++ pyReprObj tl

end

/-- Model of Python `str()` as applied by f-string interpolation. -/
def pyStr : JVal → String
  | .null => "None"
  | .bool true => "True"
  | .bool false => "False"
  | .num m e => String.mk (decStr m e)
  | .str s => s
  | .arr xs => "[" ++ pyReprList xs ++ "]"
  | .obj kvs => "\x7b" ++ pyReprObj kvs ++ "\x7d"

/-- Plain list of the elements of a `JList`. -/
def jlistToList : JList → List JVal
  | .nil => []
  | .cons v tl => v :: jlistToList tl

/-- Keys of a `JObj`, in order, as string values. -/
def jobjKeys : JObj → List JVal
  | .nil => []
  | .cons k _ tl => .str k :: jobjKeys tl

/-- Model of Python iteration over a value: sequence elements, string
characters, mapping keys; `TypeError` otherwise. -/
def pyIterVals : JVal → Except PyErr (List JVal)
  | .arr xs => .ok (jlistToList xs)
  | .str s => .ok (s.data.map fun c => .str (String.mk [c]))
  | .obj kvs => .ok (jobjKeys kvs)
  | _ => .error .typeError

/-- The joined observation items
`''.join(f"<li>...</li>" for o in positive)`. -/
def liJoin (l : List JVal) : String :=
  l.foldr (fun o acc => "<li>" ++ pyStr o ++ "</li>" ++ acc) ""

/-- The locals of `generate_interactive_html` that feed its template. -/
structure HtmlFields where
  company : String
  period_start : JVal
  period_end : JVal
  total_months : JVal
  int_score : JVal
  int_rating : JVal
  volStr : String
  vol_level : JVal
  kite_score : JVal
  kite_level : JVal
  items : String

/-- Field extraction phase of `generate_interactive_html`
(`streamlit_app.py` lines 66-91 and the two fallible conversions inside
the f-string: the `.0f` formatting of `vol_index` and the iteration over
`observations["positive"]`), in source order. -/
def genFields (data : JVal) : Except PyErr HtmlFields :=
  ebind (detect_schema_version data) fun _schema_version =>
  ebind (pyGet data "report_info" (.obj .nil)) fun r =>
  ebind (pyGet data "accounts" (.arr .nil)) fun _accounts =>
  ebind (pyGet data "consolidated" (.obj .nil)) fun _consolidated =>
  ebind (pyGet data "flags" (.obj .nil)) fun _flags =>
  ebind (pyGet data "integrity_score" (.obj .nil)) fun integrity =>
  ebind (pyGet data "volatility" (.obj .nil)) fun volatility =>
  ebind (pyGet data "kite_flying" (.obj .nil)) fun kite =>
  ebind (pyGet data "observations" (.obj .nil)) fun observations =>
  ebind (pyGet data "recommendations" (.arr .nil)) fun _recommendations =>
  ebind (resolve_company_name data "Company") fun company =>
  ebind (pyGet r "period_start" (.str "")) fun period_start =>
  ebind (pyGet r "period_end" (.str "")) fun period_end =>
  ebind (pyGet r "total_months" (.num 0 0)) fun total_months =>
  ebind (pyGet integrity "score" (.num 0 0)) fun int_score =>
  ebind (pyGet integrity "rating" (.str "N/A")) fun int_rating =>
  ebind (pyGet volatility "overall_index" (.num 0 0)) fun vol_index =>
  ebind (pyGet volatility "overall_level" (.str "LOW")) fun vol_level =>
  ebind (pyGet kite "risk_score" (.num 0 0)) fun kite_score =>
  ebind (pyGet kite "risk_level" (.str "LOW")) fun kite_level =>
  ebind (pyFormatF0 vol_index) fun volStr =>
  ebind (pyGet observations "positive" (.arr .nil)) fun positives =>
  ebind (pyIterVals positives) fun items =>
  .ok
    { company := company, period_start := period_start,
      period_end := period_end, total_months := total_months,
      int_score := int_score, int_rating := int_rating, volStr := volStr,
      vol_level := vol_level, kite_score := kite_score,
      kite_level := kite_level, items := liJoin items }

/-- Template text up to the interpolated title company name. -/
def tplHead : String :=
  "\n<!DOCTYPE html>\n<html>\n<head>\n<meta charset=\"utf-8\">\n<title>Bank Statement Analysis - "

/-- Template text between the title company name and the `h1` element
(the inlined style sheet). -/
def tplMid0 : String :=
  "</title>\n<style>\nbody \x7b\n    font-family: Arial, sans-serif;\n    background: #0f172a;\n    color: #e5e7eb;\n    padding: 2rem;\n\x7d\n.card \x7b\n    background: #020617;\n    padding: 1.5rem;\n    border-radius: 12px;\n    margin-bottom: 1rem;\n\x7d\nh1,h2 \x7b\n    color: #22c55e;\n\x7d\n</style>\n</head>\n<body>\n\n"

/-- Template text from after the `h1` element up to the timestamp
(period line, three cards, observations, footer opening). -/
def tplRest (f : HtmlFields) : String :=
  "\n<p>Period: " ++ pyStr f.period_start ++ " → " ++ pyStr f.period_end
  ++ " (" ++ pyStr f.total_months
  ++ " months)</p>\n\n<div class=\"card\">\n<h2>Integrity Score</h2>\n<p>"
  ++ pyStr f.int_score ++ "% — " ++ pyStr f.int_rating
  ++ "</p>\n</div>\n\n<div class=\"card\">\n<h2>Volatility</h2>\n<p>"
  ++ f.volStr ++ "% — " ++ pyStr f.vol_level
  ++ "</p>\n</div>\n\n<div class=\"card\">\n<h2>Kite Flying Risk</h2>\n<p>"
  ++ pyStr f.kite_score ++ " — " ++ pyStr f.kite_level
  ++ "</p>\n</div>\n\n<div class=\"card\">\n<h2>Observations</h2>\n<ul>\n"
  ++ f.items
  ++ "\n</ul>\n</div>\n\n<footer style=\"margin-top:3rem;color:#94a3b8;font-size:0.8rem\">\nGenerated "

/-- Template text after the timestamp. -/
def tplPost : String := "\n</footer>\n\n</body>\n</html>\n"

/-- The full template prefix before the timestamp.  The grouping of the
appends is chosen for proof convenience; the flattened text is exactly
the f-string of `streamlit_app.py` lines 93-145. -/
def tplPre (f : HtmlFields) : String :=
  tplHead ++ (f.company ++ (tplMid0 ++
    (("<h1>" ++ (f.company ++ "</h1>")) ++ tplRest f)))

/-- Model of `generate_interactive_html` (`streamlit_app.py` lines
65-151), with the wall-clock timestamp passed in as `now`. -/
def generate_interactive_html (data : JVal) (now : String) :
    Except PyErr String :=
  ebind (genFields data) fun f => .ok (tplPre f ++ (now ++ tplPost))

/-- Indentation for pretty-printing level `l` (two spaces per level). -/
def indentSp (l : Nat) : List Char := List.replicate (2 * l) ' '

/-- Lower-case hexadecimal digit. -/
def hexDigit (n : Nat) : Char := Char.ofNat (if n < 10 then 48 + n else 87 + n)

/-- Four hexadecimal digits of `n < 65536`. -/
def hex4 (n : Nat) : List Char :=
  [hexDigit (n / 4096 % 16), hexDigit (n / 256 % 16), hexDigit (n / 16 % 16),
   hexDigit (n % 16)]

/-- JSON string escaping of one character as the serializer performs it
(ASCII output: named escapes, `\uXXXX` for other control and non-ASCII
characters, surrogate pairs beyond the basic plane). -/
def escChar (c : Char) : List Char :=
  if c = '"' then ['\\', '"']
  else if c = '\\' then ['\\', '\\']
  else if c = '\n' then ['\\', 'n']
  else if c = '\t' then ['\\', 't']
  else if c = '\x0d' then ['\\', 'r']
  else if c = '\x08' then ['\\', 'b']
  else if c = '\x0c' then ['\\', 'f']
  else if c.toNat < 32 then '\\' :: 'u' :: hex4 c.toNat
  else if c.toNat < 127 then [c]
  else if c.toNat < 65536 then '\\' :: 'u' :: hex4 c.toNat
  else
    '\\' :: 'u' :: hex4 (55296 + (c.toNat - 65536) / 1024) ++
      ('\\' :: 'u' :: hex4 (56320 + (c.toNat - 65536) % 1024))

/-- JSON string escaping of a character list. -/
def escStr (l : List Char) : List Char :=
  l.foldr (fun c acc => escChar c ++ acc) []

/-- A JSON string literal: quote, escaped body, quote. -/
def quoteStr (s : String) : List Char := '"' :: (escStr s.data ++ ['"'])

mutual

/-- Serialization of a value as `json.dumps(v, indent=2)` renders it at
indentation level `l` (numbers in the plain decimal text of the exact
decimal model). -/
def emitV : JVal → Nat → List Char
  | .null, _ => ['n', 'u', 'l', 'l']
  | .bool true, _ => ['t', 'r', 'u', 'e']
  | .bool false, _ => ['f', 'a', 'l', 's', 'e']
  | .num m e, _ => decStr m e
  | .str s, _ => quoteStr s
  | .arr .nil, _ => ['[', ']']
  | .arr (.cons v tl), l => '[' :: emitElems (.cons v tl) l
  | .obj .nil, _ => ['\x7b', '\x7d']
  | .obj (.cons k v tl), l => '\x7b' :: emitMembs (.cons k v tl) l

/-- Serialization of the elements of a non-empty array, from after the
opening bracket through the closing bracket. -/
def emitElems : JList → Nat → List Char
  | .nil, l => '\n' :: (indentSp l ++ [']'])
  | .cons v tl, l =>
    '\n' :: (indentSp (l + 1) ++ (emitV v (l + 1) ++
      (match tl with
       | .nil => '\n' :: (indentSp l ++ [']'])
       | .cons _ _ => ',' :: emitElems tl l)))

/-- Serialization of the members of a non-empty object, from after the
opening brace through the closing brace. -/
def emitMembs : JObj → Nat → List Char
  | .nil, l => '\n' :: (indentSp l ++ ['\x7d'])
  | .cons k v tl, l =>
    '\n' :: (indentSp (l + 1) ++ (quoteStr k ++ (':' :: ' ' ::
      (emitV v (l + 1) ++
        (match tl with
         | .nil => '\n' :: (indentSp l ++ ['\x7d'])
         | .cons _ _ _ => ',' :: emitMembs tl l)))))

end

/-- Model of `json.dumps(data, indent=2)` (`streamlit_app.py` line 200). -/
def dumps (d : JVal) : String := String.mk (emitV d 0)

/-- JSON whitespace. -/
def isWs (c : Char) : Bool := c = ' ' || c = '\t' || c = '\n' || c = '\x0d'

/-- Drop leading JSON whitespace. -/
def skipWs : List Char → List Char
  | [] => []
  | c :: tl => if isWs c then skipWs tl else c :: tl

/-- Value of a hexadecimal digit character. -/
def hexVal (c : Char) : Option Nat :=
  if 48 ≤ c.toNat ∧ c.toNat ≤ 57 then some (c.toNat - 48)
  else if 97 ≤ c.toNat ∧ c.toNat ≤ 102 then some (c.toNat - 87)
  else if 65 ≤ c.toNat ∧ c.toNat ≤ 70 then some (c.toNat - 55)
  else none

/-- Value of four hexadecimal digit characters. -/
def hex4Val (a b c d : Char) : Option Nat :=
  match hexVal a, hexVal b, hexVal c, hexVal d with
  | some x, some y, some z, some w => some (((x * 16 + y) * 16 + z) * 16 + w)
  | _, _, _, _ => none

/-- Prepend a decoded character to a string-body parse result. -/
def pcons (c : Char) : Option (List Char × List Char) →
    Option (List Char × List Char)
  | none => none
  | some (l, r) => some (c :: l, r)

/-- Decoder for a four-digit escape (and, for a high surrogate, its
mandatory low-surrogate partner), from after the `u`. -/
def decodeU : List Char → Option (Char × List Char)
  | a :: b :: c2 :: d :: tl3 =>
    match hex4Val a b c2 d with
    | none => none
    | some n =>
      if 55296 ≤ n ∧ n ≤ 56319 then
        match tl3 with
        | e1 :: e2 :: a2 :: b2 :: c3 :: d2 :: tl4 =>
          if e1 = '\\' then
            if e2 = 'u' then
              match hex4Val a2 b2 c3 d2 with
              | none => none
              | some n2 =>
                if 56320 ≤ n2 ∧ n2 ≤ 57343 then
                  some (Char.ofNat (65536 + (n - 55296) * 1024 +
                    (n2 - 56320)), tl4)
                else none
            else none
          else none
        | _ => none
      else if 56320 ≤ n ∧ n ≤ 57343 then none
      else some (Char.ofNat n, tl3)
  | _ => none

/-- Decoder for one escape sequence, from after the backslash. -/
def decodeEsc : List Char → Option (Char × List Char)
  | [] => none
  | e :: tl2 =>
    if e = '"' then some ('"', tl2)
    else if e = '\\' then some ('\\', tl2)
    else if e = '/' then some ('/', tl2)
    else if e = 'n' then some ('\n', tl2)
    else if e = 't' then some ('\t', tl2)
    else if e = 'r' then some ('\x0d', tl2)
    else if e = 'b' then some ('\x08', tl2)
    else if e = 'f' then some ('\x0c', tl2)
    else if e = 'u' then decodeU tl2
    else none

/-- Fuelled parser for the body of a JSON string literal, from after the
opening quote through the closing quote, decoding escapes and surrogate
pairs (the model of the loader rejects raw control characters, as the
strict Python decoder does, and unpaired surrogates, which the character
model cannot carry).  Every step consumes input, so fuel of the input
length is always enough. -/
def pStrBody : Nat → List Char → Option (List Char × List Char)
  | 0, _ => none
  | fuel + 1, cs =>
    match cs with
    | [] => none
    | c :: tl =>
      if c = '"' then some ([], tl)
      else if c = '\\' then
        match decodeEsc tl with
        | none => none
        | some (ch, tl2) => pcons ch (pStrBody fuel tl2)
      else if c.toNat < 32 then none
      else pcons c (pStrBody fuel tl)

/-- Decimal digit test. -/
def isDig (c : Char) : Bool := 48 ≤ c.toNat && c.toNat ≤ 57

/-- Read a run of decimal digits into an accumulator. -/
def readDigits : Nat → List Char → Nat × List Char
  | acc, [] => (acc, [])
  | acc, c :: tl =>
    if isDig c then readDigits (acc * 10 + (c.toNat - 48)) tl
    else (acc, c :: tl)

/-- Read a run of fraction digits, counting them. -/
def readFrac : Nat → Nat → List Char → Nat × Nat × List Char
  | acc, e, [] => (acc, e, [])
  | acc, e, c :: tl =>
    if isDig c then readFrac (acc * 10 + (c.toNat - 48)) (e + 1) tl
    else (acc, e, c :: tl)

/-- Continue a number after its integer part: an optional fraction. -/
def pNumAfterInt (n : Nat) (cs : List Char) :
    Option ((Nat × Nat) × List Char) :=
  match cs with
  | c :: tl =>
    if c = '.' then
      match tl with
      | c2 :: _ =>
        if isDig c2 then
          match readFrac n 0 tl with
          | (m, e, tl2) => some ((m, e), tl2)
        else none
      | [] => none
    else some ((n, 0), c :: tl)
  | [] => some ((n, 0), [])

/-- Parser for an unsigned JSON number in plain decimal notation
(mantissa and count of fraction digits). -/
def pNumPos : List Char → Option ((Nat × Nat) × List Char)
  | c :: tl =>
    if c = '0' then pNumAfterInt 0 tl
    else if isDig c then
      match readDigits (c.toNat - 48) tl with
      | (n, tl2) => pNumAfterInt n tl2
    else none
  | [] => none

/-- Parser for a JSON number token. -/
def pNum : List Char → Option (JVal × List Char)
  | [] => none
  | c :: tl =>
    if c = '-' then
      match pNumPos tl with
      | some ((n, e), rest) => some (.num (-(n : Int)) e, rest)
      | none => none
    else
      match pNumPos (c :: tl) with
      | some ((n, e), rest) => some (.num (n : Int) e, rest)
      | none => none

/-- Insertion into a parsed object as the Python dict builder performs
it: a duplicate key keeps its first position and takes the last value. -/
def objInsert : JObj → String → JVal → JObj
  | .nil, k, v => .cons k v .nil
  | .cons k0 v0 tl, k, v =>
    if k0 = k then .cons k0 v tl else .cons k0 v0 (objInsert tl k v)

mutual

/-- Fuelled parser for a JSON value (the fuel only bounds nesting work;
`parseJson` supplies input length plus one). -/
def pVal : Nat → List Char → Option (JVal × List Char)
  | 0, _ => none
  | fuel + 1, cs =>
    match skipWs cs with
    | [] => none
    | c :: tl =>
      if c = 'n' then
        match tl with
        | 'u' :: 'l' :: 'l' :: r => some (.null, r)
        | _ => none
      else if c = 't' then
        match tl with
        | 'r' :: 'u' :: 'e' :: r => some (.bool true, r)
        | _ => none
      else if c = 'f' then
        match tl with
        | 'a' :: 'l' :: 's' :: 'e' :: r => some (.bool false, r)
        | _ => none
      else if c = '"' then
        match pStrBody tl.length tl with
        | some (l, r) => some (.str (String.mk l), r)
        | none => none
      else if c = '[' then
        match skipWs tl with
        | [] => none
        | c2 :: r =>
          if c2 = ']' then some (.arr .nil, r)
          else
            match pElems fuel tl with
            | some (xs, r2) => some (.arr xs, r2)
            | none => none
      else if c = '\x7b' then
        match skipWs tl with
        | [] => none
        | c2 :: r =>
          if c2 = '\x7d' then some (.obj .nil, r)
          else
            match pMembs fuel .nil tl with
            | some (kvs, r2) => some (.obj kvs, r2)
            | none => none
      else pNum (c :: tl)

/-- Fuelled parser for the elements of a non-empty array, from after the
opening bracket through the closing bracket. -/
def pElems : Nat → List Char → Option (JList × List Char)
  | 0, _ => none
  | fuel + 1, cs =>
    match pVal fuel cs with
    | none => none
    | some (v, r1) =>
      match skipWs r1 with
      | [] => none
      | c2 :: r2 =>
        if c2 = ',' then
          match pElems fuel r2 with
          | some (xs, r3) => some (.cons v xs, r3)
          | none => none
        else if c2 = ']' then some (.cons v .nil, r2)
        else none

/-- Fuelled parser for the members of a non-empty object, from after the
opening brace through the closing brace, inserting into `acc` as the
Python dict builder does. -/
def pMembs : Nat → JObj → List Char → Option (JObj × List Char)
  | 0, _, _ => none
  | fuel + 1, acc, cs =>
    match skipWs cs with
    | [] => none
    | c0 :: tl =>
      if c0 = '"' then
        match pStrBody tl.length tl with
        | none => none
        | some (kl, r1) =>
          match skipWs r1 with
          | [] => none
          | c1 :: r2 =>
            if c1 = ':' then
              match pVal fuel r2 with
              | none => none
              | some (v, r3) =>
                match skipWs r3 with
                | [] => none
                | c2 :: r4 =>
                  if c2 = ',' then
                    pMembs fuel (objInsert acc (String.mk kl) v) r4
                  else if c2 = '\x7d' then
                    some (objInsert acc (String.mk kl) v, r4)
                  else none
            else none
      else none

end

/-- Model of `json.load` (`streamlit_app.py` line 168) on the uploaded
text: parse one value, allow surrounding whitespace, reject trailing
data.  Numbers are supported in the plain decimal notation the decimal
model carries (no exponent notation). -/
def parseJson (s : String) : Option JVal :=
  match pVal (s.data.length + 1) s.data with
  | some (v, r) => if (skipWs r).isEmpty then some v else none
  | none => none

/-- Model of Python `len`. -/
def pyLen : JVal → Except PyErr Nat
  | .arr xs => .ok xs.length
  | .str s => .ok s.data.length
  | .obj kvs => .ok kvs.length
  | _ => .error .typeError

/-- The four metric tiles of the summary view (`streamlit_app.py` lines
188-192): integrity percentage text, raw kite risk value, volatility
percentage text, account count. -/
def summaryMetrics (data : JVal) :
    Except PyErr (String × JVal × String × Nat) :=
  ebind (pyGet data "integrity_score" (.obj .nil)) fun integrity =>
  ebind (pyGet integrity "score" (.num 0 0)) fun score =>
  ebind (pyGet data "kite_flying" (.obj .nil)) fun kite =>
  ebind (pyGet kite "risk_score" (.num 0 0)) fun kiteScore =>
  ebind (pyGet data "volatility" (.obj .nil)) fun volatility =>
  ebind (pyGet volatility "overall_index" (.num 0 0)) fun volIndex =>
  ebind (pyFormatF0 volIndex) fun volStr =>
  ebind (pyGet data "accounts" (.arr .nil)) fun accounts =>
  ebind (pyLen accounts) fun n =>
  .ok (pyStr score ++ "%", kiteScore, volStr ++ "%", n)

/-- Model of `company.replace(" ", "_")`. -/
def underscoreSpaces (s : String) : String :=
  String.mk (s.data.map fun c => if c = ' ' then '_' else c)

/-- Everything the page shows or offers after a truthy document loads
(`streamlit_app.py` lines 176-211). -/
structure Page where
  banner : String
  header : String
  mIntegrity : String
  mKite : JVal
  mVol : String
  mAccounts : Nat
  jsonContent : String
  jsonName : String
  htmlContent : String
  htmlName : String

/-- Model of the rendering path of `main` (`streamlit_app.py` lines
176-211), in source order. -/
def renderPage (data : JVal) (now : String) : Except PyErr Page :=
  ebind (detect_schema_version data) fun schema_version =>
  ebind (resolve_company_name data "Unknown") fun company =>
  ebind (pyGet data "report_info" (.obj .nil)) fun r =>
  ebind (pyGet r "period_start" (.str "")) fun ps =>
  ebind (pyGet r "period_end" (.str "")) fun pe =>
  ebind (pyGet r "total_months" (.num 0 0)) fun tm =>
  ebind (summaryMetrics data) fun mets =>
  ebind (generate_interactive_html data now) fun html =>
  .ok
    { banner := "Loaded: " ++ company ++ " (Schema v" ++ schema_version ++ ")",
      header := "**" ++ company ++ "**  \n" ++ pyStr ps ++ " → " ++ pyStr pe
        ++ "  \n" ++ pyStr tm ++ " Months",
      mIntegrity := mets.1, mKite := mets.2.1, mVol := mets.2.2.1,
      mAccounts := mets.2.2.2,
      jsonContent := dumps data,
      jsonName := underscoreSpaces company ++ "_analysis.json",
      htmlContent := html,
      htmlName := underscoreSpaces company ++ "_analysis.html" }

/-- What the app surface shows for one interaction: the upload prompt
(with an optional preceding parse-error message, after which `st.stop`
halts the run) or the rendered report page. -/
inductive MainView where
  | prompt (err : Option String) : MainView
  | report (page : Except PyErr Page) : MainView

/-- Model of the module-level flow of `streamlit_app.py` (lines 160-211):
an optional uploaded text is parsed; a missing upload, a parse failure
and a falsy parsed document all stop at the prompt; a truthy document is
rendered. -/
def runMain (upload : Option String) (now : String) : MainView :=
  match upload with
  | none => .prompt none
  | some content =>
    match parseJson content with
    | none => .prompt (some "Invalid JSON")
    | some v => if truthy v then .report (renderPage v now) else .prompt none

/-- Substring occurrence (the needle occurs contiguously in the hay). -/
def strContains (hay needle : String) : Prop := needle.data <:+: hay.data

/-- The volatility value as the renderers look it up:
`data.get("volatility", {}).get("overall_index", 0)`. -/
def volVal (d : JVal) : Except PyErr JVal :=
  ebind (pyGet d "volatility" (.obj .nil)) fun v =>
    pyGet v "overall_index" (.num 0 0)

/-- The integrity score as the renderers look it up. -/
def intVal (d : JVal) : Except PyErr JVal :=
  ebind (pyGet d "integrity_score" (.obj .nil)) fun i =>
    pyGet i "score" (.num 0 0)

/-- The kite-flying risk score as the renderers look it up. -/
def kiteVal (d : JVal) : Except PyErr JVal :=
  ebind (pyGet d "kite_flying" (.obj .nil)) fun k =>
    pyGet k "risk_score" (.num 0 0)

/-- The extracted fields determine the rendered document: a normal
render is the template prefix, the timestamp, and the constant tail. -/
theorem gen_shape (d : JVal) (t h : String)
    (hg : generate_interactive_html d t = .ok h) :
    ∃ f, genFields d = .ok f ∧ h = tplPre f ++ (t ++ tplPost) := by
  unfold generate_interactive_html at hg
  rcases hf : genFields d with e | f <;> rw [hf] at hg
  · simp [ebind] at hg
  · refine ⟨f, rfl, ?_⟩
    simpa [ebind] using hg.symm

/-- A normal render contains the company name of its extracted fields
(at the interpolated title position). -/
theorem gen_contains_company (d : JVal) (t h : String) (f : HtmlFields)
    (hf : genFields d = .ok f)
    (hg : generate_interactive_html d t = .ok h) :
    strContains h f.company := by
  obtain ⟨f2, hf2, hh⟩ := gen_shape d t h hg
  rw [hf] at hf2
  cases hf2
  subst hh
  unfold strContains tplPre
  refine ⟨tplHead.data, (tplMid0 ++ (("<h1>" ++ (f.company ++ "</h1>")) ++
    tplRest f) ++ (t ++ tplPost)).data, ?_⟩
  simp [String.data_append, List.append_assoc]

/-- A normal render contains the `h1` element built from the company
name of its extracted fields. -/
theorem gen_contains_h1 (d : JVal) (t h : String) (f : HtmlFields)
    (hf : genFields d = .ok f)
    (hg : generate_interactive_html d t = .ok h) :
    strContains h ("<h1>" ++ (f.company ++ "</h1>")) := by
  obtain ⟨f2, hf2, hh⟩ := gen_shape d t h hg
  rw [hf] at hf2
  cases hf2
  subst hh
  unfold strContains tplPre
  refine ⟨(tplHead ++ (f.company ++ tplMid0)).data,
    (tplRest f ++ (t ++ tplPost)).data, ?_⟩
  simp [String.data_append, List.append_assoc]

/-- Claim C7: rendering is deterministic up to the timestamp: two normal
renders of the same document share one prefix and one suffix and differ
only in the interpolated timestamp between them, and evaluation of the
summary-view fields is a function of the document alone. -/
theorem c7_deterministic (d : JVal) (t1 t2 h1 h2 : String)
    (ha : generate_interactive_html d t1 = .ok h1)
    (hb : generate_interactive_html d t2 = .ok h2) :
    (∃ p s, h1 = p ++ t1 ++ s ∧ h2 = p ++ t2 ++ s) ∧
    (∀ r1 r2, summaryMetrics d = r1 → summaryMetrics d = r2 → r1 = r2) := by
  refine ⟨?_, fun r1 r2 e1 e2 => e1 ▸ e2⟩
  obtain ⟨f, hf, hh1⟩ := gen_shape d t1 h1 ha
  obtain ⟨f2, hf2, hh2⟩ := gen_shape d t2 h2 hb
  rw [hf] at hf2
  cases hf2
  exact ⟨tplPre f, tplPost, by rw [hh1, String.append_assoc],
    by rw [hh2, String.append_assoc]⟩

/-- Render of the acme document with timestamp "A". -/
def htmlA : String :=
  (generate_interactive_html docAcme "A").toOption.getD ""

/-- Render of the acme document with timestamp "B". -/
def htmlB : String :=
  (generate_interactive_html docAcme "B").toOption.getD ""

/-- Witness for C7 at the acme document and two timestamps. -/
theorem c7_deterministic_witness :
    ∃ p s, htmlA = p ++ "A" ++ s ∧ htmlB = p ++ "B" ++ s :=
  (c7_deterministic docAcme "A" "B" htmlA htmlB rfl rfl).1

/-- Claim C9: an upload that parses to a falsy value is treated exactly
like no upload: the flow stops at the prompt, with no error message and
no rendering. -/
theorem c9_falsy_upload (s : String) (v : JVal) (now : String)
    (hp : parseJson s = some v) (hf : truthy v = false) :
    runMain (some s) now = runMain none now ∧
    runMain none now = .prompt none := by
  simp [runMain, hp, hf]

/-- Witness for C9 at the upload text of an empty object. -/
theorem c9_falsy_upload_witness :
    runMain (some "\x7b\x7d") "T" = runMain none "T" ∧
    runMain none "T" = .prompt none :=
  c9_falsy_upload "\x7b\x7d" (.obj .nil) "T" rfl rfl

/-- Document whose nested company name is a script element. -/
def docScript : JVal :=
  .obj (.cons "report_info"
    (.obj (.cons "company_name" (.str "<script>alert(1)</script>") .nil))
    .nil)

/-- The standalone document generated for `docScript` at a fixed
timestamp. -/
def scriptHtml : String :=
  (generate_interactive_html docScript "2024-01-01T00:00:00").toOption.getD ""

/-- Claim C4: the generator performs no escaping: with a company name
containing markup-significant characters, the generated document
contains them verbatim. -/
theorem c4_markup_unescaped :
    generate_interactive_html docScript "2024-01-01T00:00:00" =
      .ok scriptHtml ∧
    strContains scriptHtml "<script>alert(1)</script>" := by
  refine ⟨rfl, ?_⟩
  exact gen_contains_company docScript "2024-01-01T00:00:00" scriptHtml _
    rfl rfl

/-- Powers of ten are positive. -/
theorem pTen_pos (e : Nat) : 1 ≤ pTen e := by
  induction e with
  | zero => simp [pTen]
  | succ n ih => simp only [pTen]; omega

/-- The rounding applied by `.0f` formatting lands on a nearest whole
number: twice the distance from the value `m / 10 ^ e` to the chosen
integer is at most one unit (all sides scaled by `10 ^ e`). -/
theorem rhe_nearest (m : Int) (e : Nat) :
    2 * ((m - rhe m e * pTen e).natAbs : Int) ≤ pTen e := by
  have hd := pTen_pos e
  have hne : pTen e ≠ 0 := by omega
  have h1 := Int.ediv_add_emod m (pTen e)
  have h2 : 0 ≤ Int.emod m (pTen e) := Int.emod_nonneg m hne
  have h3 : Int.emod m (pTen e) < pTen e := Int.emod_lt_of_pos m (by omega)
  have key : m - Int.ediv m (pTen e) * pTen e = Int.emod m (pTen e) := by
    linear_combination -h1
  have key2 : m - (Int.ediv m (pTen e) + 1) * pTen e =
      Int.emod m (pTen e) - pTen e := by
    linear_combination -h1
  unfold rhe
  dsimp only
  split_ifs with c1 c2 c3
  · rw [key]; omega
  · rw [key2]; omega
  · rw [key]; omega
  · rw [key2]; omega

/-- The company name rendered by the standalone generator is exactly the
result of the resolver with default "Company". -/
theorem genFields_company (d : JVal) (f : HtmlFields) (c : String)
    (hf : genFields d = .ok f)
    (hr : resolve_company_name d "Company" = .ok c) :
    f.company = c := by
  simp only [genFields, ebind] at hf
  repeat' split at hf
  all_goals try simp_all
  subst hf
  rfl

/-- The volatility text rendered by the standalone generator is exactly
the `.0f` formatting of the looked-up volatility value. -/
theorem genFields_volStr (d : JVal) (f : HtmlFields) (m : Int) (e : Nat)
    (hf : genFields d = .ok f) (hv : volVal d = .ok (.num m e)) :
    f.volStr = fmtF0 m e := by
  simp only [genFields, ebind] at hf
  simp only [volVal, ebind] at hv
  repeat' split at hf
  all_goals try simp_all [pyFormatF0]
  subst hf
  rfl

/-- The four metric tiles of the summary view, as functions of the
looked-up fields. -/
theorem summaryMetrics_fields (d : JVal) (tup : String × JVal × String × Nat)
    (hm : summaryMetrics d = .ok tup) :
    (∀ s, intVal d = .ok s → tup.1 = pyStr s ++ "%") ∧
    (∀ k, kiteVal d = .ok k → tup.2.1 = k) ∧
    (∀ m e, volVal d = .ok (.num m e) → tup.2.2.1 = fmtF0 m e ++ "%") ∧
    (∀ xs, pyGet d "accounts" (.arr .nil) = .ok (.arr xs) →
      tup.2.2.2 = xs.length) := by
  simp only [summaryMetrics, ebind] at hm
  repeat' split at hm
  all_goals try simp_all [intVal, kiteVal, volVal, ebind, pyLen, pyFormatF0]
  subst hm
  simp_all [intVal, kiteVal, volVal, ebind, pyLen, pyFormatF0]
  constructor
  · intro m e hv3
    subst hv3
    simp_all
  · intro xs hx
    subst hx
    simp_all

/-- Claim C8: in both output modes the displayed volatility is the
looked-up `volatility.overall_index` (defaulting to 0 when absent)
rounded to a nearest whole number by the `.0f` conversion, and the other
three summary metrics are the integrity score percentage, the raw
kite-flying risk score, and the length of `accounts`. -/
theorem c8_volatility_rounding (d : JVal) (m : Int) (e : Nat)
    (tup : String × JVal × String × Nat)
    (hvol : volVal d = .ok (.num m e))
    (hm : summaryMetrics d = .ok tup) :
    tup.2.2.1 = fmtF0 m e ++ "%" ∧
    2 * ((m - rhe m e * pTen e).natAbs : Int) ≤ pTen e ∧
    (∀ f, genFields d = .ok f → f.volStr = fmtF0 m e) ∧
    (∀ s, intVal d = .ok s → tup.1 = pyStr s ++ "%") ∧
    (∀ k, kiteVal d = .ok k → tup.2.1 = k) ∧
    (∀ xs, pyGet d "accounts" (.arr .nil) = .ok (.arr xs) →
      tup.2.2.2 = xs.length) := by
  obtain ⟨hInt, hKite, hVol, hAcc⟩ := summaryMetrics_fields d tup hm
  exact ⟨hVol m e hvol, rhe_nearest m e,
    fun f hf => genFields_volStr d f m e hf hvol, hInt, hKite, hAcc⟩

/-- Document whose volatility index is the decimal 72.5. -/
def docVol : JVal :=
  .obj (.cons "volatility"
    (.obj (.cons "overall_index" (.num 725 1) .nil)) .nil)

/-- Witness for C8 at the document with volatility 72.5 (the half-even
conversion displays 72). -/
theorem c8_volatility_rounding_witness :
    volVal docVol = .ok (.num 725 1) ∧
    summaryMetrics docVol = .ok ("0%", .num 0 0, "72%", 0) ∧
    "72%" = fmtF0 725 1 ++ "%" :=
  ⟨rfl, rfl,
    (c8_volatility_rounding docVol 725 1 ("0%", .num 0 0, "72%", 0)
      rfl rfl).1⟩

/-- Claim C10: when no company-name candidate qualifies, the two output
surfaces fall back differently: the on-screen banner and both download
filenames use "Unknown" while the standalone document is headed
"Company"; both fallback strings lower-case into the resolver
blocklist. -/
theorem c10_two_fallbacks (d : JVal) (now : String) (page : Page)
    (hu : resolve_company_name d "Unknown" = .ok "Unknown")
    (hp : renderPage d now = .ok page) :
    page.jsonName = "Unknown_analysis.json" ∧
    page.htmlName = "Unknown_analysis.html" ∧
    strContains page.banner "Unknown" ∧
    strContains page.htmlContent "<h1>Company</h1>" ∧
    blocklist.contains (lowStr "Company") = true ∧
    blocklist.contains (lowStr "Unknown") = true := by
  have hcomp : resolve_company_name d "Company" = .ok "Company" := by
    rcases resolve_ok_shape d "Unknown" "Company" "Unknown" hu with
      ⟨_, h⟩ | ⟨_, _, hb⟩
    · exact h
    · exact absurd hb (by decide)
  simp only [renderPage, ebind] at hp
  rcases h1 : detect_schema_version d with e1 | ver <;> rw [h1] at hp <;> (try dsimp only at hp)
  · simp at hp
  rw [hu] at hp
  dsimp only at hp
  rcases h3 : pyGet d "report_info" (.obj .nil) with e3 | r <;>
    rw [h3] at hp <;> (try dsimp only at hp)
  · simp at hp
  rcases h4 : pyGet r "period_start" (.str "") with e4 | ps <;>
    rw [h4] at hp <;> (try dsimp only at hp)
  · simp at hp
  rcases h5 : pyGet r "period_end" (.str "") with e5 | pe <;>
    rw [h5] at hp <;> (try dsimp only at hp)
  · simp at hp
  rcases h6 : pyGet r "total_months" (.num 0 0) with e6 | tm <;>
    rw [h6] at hp <;> (try dsimp only at hp)
  · simp at hp
  rcases h7 : summaryMetrics d with e7 | mets <;> rw [h7] at hp <;> (try dsimp only at hp)
  · simp at hp
  rcases h8 : generate_interactive_html d now with e8 | html <;>
    rw [h8] at hp <;> (try dsimp only at hp)
  · simp at hp
  obtain ⟨f, hf, _⟩ := gen_shape d now html h8
  have hfc : f.company = "Company" := genFields_company d f "Company" hf hcomp
  have hcontains : strContains html ("<h1>" ++ (f.company ++ "</h1>")) :=
    gen_contains_h1 d now html f hf h8
  rw [hfc] at hcontains
  simp only [Except.ok.injEq] at hp
  subst hp
  refine ⟨rfl, rfl, ?_, ?_, by decide, by decide⟩
  · exact ⟨"Loaded: ".data,
      (" (Schema v" ++ ver ++ ")").data,
      by simp [String.data_append, List.append_assoc]⟩
  · exact hcontains

/-- A vacuous page record, used only as a fallback when projecting a
computed page out of `Except`. -/
def emptyPage : Page :=
  { banner := "", header := "", mIntegrity := "", mKite := .null,
    mVol := "", mAccounts := 0, jsonContent := "", jsonName := "",
    htmlContent := "", htmlName := "" }

/-- The page rendered for the empty document. -/
def pageEmptyDoc : Page := (renderPage (.obj .nil) "T").toOption.getD emptyPage

/-- Witness for C10 at the empty document. -/
theorem c10_two_fallbacks_witness :
    resolve_company_name (.obj .nil) "Unknown" = .ok "Unknown" ∧
    renderPage (.obj .nil) "T" = .ok pageEmptyDoc ∧
    pageEmptyDoc.jsonName = "Unknown_analysis.json" ∧
    pageEmptyDoc.htmlName = "Unknown_analysis.html" ∧
    strContains pageEmptyDoc.htmlContent "<h1>Company</h1>" :=
  ⟨rfl, rfl, (c10_two_fallbacks (.obj .nil) "T" pageEmptyDoc rfl rfl).1,
    (c10_two_fallbacks (.obj .nil) "T" pageEmptyDoc rfl rfl).2.1,
    (c10_two_fallbacks (.obj .nil) "T" pageEmptyDoc rfl rfl).2.2.2.1⟩

mutual

/-- Parse-work weight of a value (bounds the fuel the parser needs). -/
def jweight : JVal → Nat
  | .null => 1
  | .bool _ => 1
  | .num _ _ => 1
  | .str _ => 1
  | .arr xs => 1 + jweightL xs
  | .obj kvs => 1 + jweightO kvs

/-- Parse-work weight of array elements. -/
def jweightL : JList → Nat
  | .nil => 0
  | .cons v tl => 1 + jweight v + jweightL tl

/-- Parse-work weight of object members. -/
def jweightO : JObj → Nat
  | .nil => 0
  | .cons _ v tl => 1 + jweight v + jweightO tl

end

/-- Key `k` does not occur among the keys of the object. -/
def keysNotIn (k : String) : JObj → Bool
  | .nil => true
  | .cons k2 _ tl => if k2 = k then false else keysNotIn k tl

mutual

/-- No object anywhere in the value carries a duplicate key (true of
every document produced by parsing, since the dict builder collapses
duplicates). -/
def ndk : JVal → Bool
  | .null => true
  | .bool _ => true
  | .num _ _ => true
  | .str _ => true
  | .arr xs => ndkl xs
  | .obj kvs => ndko kvs

/-- `ndk` on every element. -/
def ndkl : JList → Bool
  | .nil => true
  | .cons v tl => ndk v && ndkl tl

/-- Pairwise-distinct keys at this level and `ndk` below. -/
def ndko : JObj → Bool
  | .nil => true
  | .cons k v tl => keysNotIn k tl && ndk v && ndko tl

end

/-- Keys of the second object are all absent from the first. -/
def disjointKeys (acc : JObj) : JObj → Bool
  | .nil => true
  | .cons k _ tl => keysNotIn k acc && disjointKeys acc tl

/-- Concatenation of objects. -/
def objAppend : JObj → JObj → JObj
  | .nil, b => b
  | .cons k v tl, b => .cons k v (objAppend tl b)

/-- All characters are JSON whitespace. -/
def allWsB : List Char → Bool
  | [] => true
  | c :: tl => isWs c && allWsB tl

/-- The continuation does not begin with a character that would extend a
number token. -/
def delimOk : List Char → Bool
  | [] => true
  | c :: _ => !(isDig c || c = '.')

/-- All characters are decimal digits. -/
def allDig : List Char → Bool
  | [] => true
  | c :: tl => isDig c && allDig tl

/-- Digit-string value with accumulator. -/
def valAcc : Nat → List Char → Nat
  | acc, [] => acc
  | acc, c :: tl => valAcc (acc * 10 + (c.toNat - 48)) tl

/-- Specification form of the digit expansion (most significant first). -/
def digitsSpec (n : Nat) : List Char :=
  if _h : n < 10 then [digitChar n]
  else digitsSpec (n / 10) ++ [digitChar (n % 10)]
termination_by n
decreasing_by exact Nat.div_lt_self (by omega) (by omega)

/-- Skipping whitespace passes over an all-whitespace prefix. -/
theorem skipWs_allWs (pre s : List Char) (h : allWsB pre = true) :
    skipWs (pre ++ s) = skipWs s := by
  induction pre with
  | nil => rfl
  | cons c tl ih =>
    simp only [allWsB, Bool.and_eq_true] at h
    simp [skipWs, h.1, ih h.2]

/-- Skipping whitespace stops at a non-whitespace head. -/
theorem skipWs_not_ws (c : Char) (s : List Char) (h : isWs c = false) :
    skipWs (c :: s) = c :: s := by
  simp [skipWs, h]

/-- Runs of spaces are whitespace. -/
theorem allWsB_replicate_space (n : Nat) :
    allWsB (List.replicate n ' ') = true := by
  induction n with
  | zero => rfl
  | succ n ih => simp [List.replicate, allWsB, isWs, ih]

/-- The indent prefix inserted by the serializer is whitespace. -/
theorem allWsB_indent (l : Nat) : allWsB ('\n' :: indentSp l) = true := by
  simp only [allWsB, indentSp, Bool.and_eq_true]
  exact ⟨by decide, allWsB_replicate_space (2 * l)⟩

/-- The digit expansion produced by the fuelled loop is the
specification expansion. -/
theorem natDigitsGo_spec (fuel : Nat) :
    ∀ n acc, n < fuel → natDigitsGo fuel n acc = digitsSpec n ++ acc := by
  induction fuel with
  | zero => intro n acc h; omega
  | succ fuel ih =>
    intro n acc h
    by_cases h10 : n < 10
    · simp [natDigitsGo, digitsSpec, h10]
    · have h1 : n / 10 < fuel := by
        have := Nat.div_lt_self (show 0 < n by omega) (show 1 < 10 by omega)
        omega
      simp only [natDigitsGo, if_neg h10]
      rw [ih (n / 10) (digitChar (n % 10) :: acc) h1]
      conv_rhs => rw [digitsSpec]
      rw [dif_neg h10]
      simp

/-- The digit list of a natural number. -/
theorem natDigits_eq_spec (n : Nat) : natDigits n = digitsSpec n := by
  unfold natDigits
  rw [natDigitsGo_spec (n + 1) n [] (by omega)]
  simp

/-- Digit characters are decimal digits. -/
theorem isDig_digitChar (n : Nat) (h : n < 10) :
    isDig (digitChar n) = true := by
  interval_cases n <;> decide

/-- Digit runs concatenate. -/
theorem allDig_append (a b : List Char) :
    allDig (a ++ b) = (allDig a && allDig b) := by
  induction a with
  | nil => simp [allDig]
  | cons c tl ih => simp [allDig, ih, Bool.and_assoc]

/-- The specification expansion consists of digits. -/
theorem allDig_digitsSpec (n : Nat) : allDig (digitsSpec n) = true := by
  induction n using Nat.strong_induction_on with
  | _ n ih =>
    by_cases h10 : n < 10
    · rw [digitsSpec, dif_pos h10]
      simp [allDig, isDig_digitChar n h10]
    · rw [digitsSpec, dif_neg h10]
      rw [allDig_append]
      have h2 : n % 10 < 10 := Nat.mod_lt n (by omega)
      simp [ih (n / 10) (Nat.div_lt_self (by omega) (by omega)), allDig,
        isDig_digitChar _ h2]

/-- Evaluation rule for `valAcc` on the empty list. -/
theorem valAcc_nil (acc : Nat) : valAcc acc [] = acc := rfl

/-- Evaluation rule for `valAcc` on a cons. -/
theorem valAcc_cons (acc : Nat) (c : Char) (tl : List Char) :
    valAcc acc (c :: tl) = valAcc (acc * 10 + (c.toNat - 48)) tl := rfl

/-- Digit concatenation under the accumulator value. -/
theorem valAcc_append (a b : List Char) :
    ∀ acc, valAcc acc (a ++ b) = valAcc (valAcc acc a) b := by
  induction a with
  | nil => intro acc; rfl
  | cons c tl ih =>
    intro acc
    rw [List.cons_append]
    show valAcc (acc * 10 + (c.toNat - 48)) (tl ++ b) = _
    rw [ih]
    rfl

/-- Leading zeros do not change the accumulated value. -/
theorem valAcc_zeros (k : Nat) : ∀ acc, valAcc acc (List.replicate k '0') =
    acc * 10 ^ k := by
  induction k with
  | zero => intro acc; simp [valAcc_nil]
  | succ k ih =>
    intro acc
    simp only [List.replicate, valAcc_cons]
    rw [ih]
    have : ('0' : Char).toNat - 48 = 0 := by decide
    rw [this]
    ring

/-- Numeric value of a digit character. -/
theorem digitChar_toNat (n : Nat) (h : n < 10) :
    (digitChar n).toNat = 48 + n := by
  interval_cases n <;> decide

/-- The accumulated value of the specification expansion. -/
theorem valAcc_digitsSpec (n : Nat) : ∀ acc,
    valAcc acc (digitsSpec n) = acc * 10 ^ (digitsSpec n).length + n := by
  induction n using Nat.strong_induction_on with
  | _ n ih =>
    intro acc
    by_cases h10 : n < 10
    · rw [digitsSpec, dif_pos h10]
      simp only [valAcc_cons, valAcc_nil, List.length_singleton]
      have : (digitChar n).toNat - 48 = n := by interval_cases n <;> decide
      rw [this]
      ring
    · rw [digitsSpec, dif_neg h10]
      rw [valAcc_append]
      rw [ih (n / 10) (Nat.div_lt_self (by omega) (by omega))]
      simp only [valAcc_cons, valAcc_nil, List.length_append,
        List.length_singleton]
      have h2 : n % 10 < 10 := Nat.mod_lt n (by omega)
      have h3 : (digitChar (n % 10)).toNat - 48 = n % 10 := by
        have h5 := digitChar_toNat (n % 10) h2
        omega
      rw [h3]
      have h4 := Nat.div_add_mod n 10
      ring_nf
      omega

/-- Evaluation rule for `readDigits` on the empty list. -/
theorem readDigits_nil (acc : Nat) : readDigits acc [] = (acc, []) := rfl

/-- Evaluation rule for `readDigits` on a cons. -/
theorem readDigits_cons (acc : Nat) (c : Char) (tl : List Char) :
    readDigits acc (c :: tl) =
      if isDig c then readDigits (acc * 10 + (c.toNat - 48)) tl
      else (acc, c :: tl) := rfl

/-- Evaluation rule for `readFrac` on the empty list. -/
theorem readFrac_nil (acc e : Nat) : readFrac acc e [] = (acc, e, []) := rfl

/-- Evaluation rule for `readFrac` on a cons. -/
theorem readFrac_cons (acc e : Nat) (c : Char) (tl : List Char) :
    readFrac acc e (c :: tl) =
      if isDig c then readFrac (acc * 10 + (c.toNat - 48)) (e + 1) tl
      else (acc, e, c :: tl) := rfl

/-- The continuation begins with no digit. -/
def notDigStart : List Char → Bool
  | [] => true
  | c :: _ => !isDig c

/-- Reading digits consumes a digit run and accumulates its value. -/
theorem readDigits_run (ds : List Char) : ∀ acc rest, allDig ds = true →
    readDigits acc (ds ++ rest) = readDigits (valAcc acc ds) rest := by
  induction ds with
  | nil => intro acc rest _; rw [valAcc_nil]; rfl
  | cons c tl ih =>
    intro acc rest h
    simp only [allDig, Bool.and_eq_true] at h
    rw [List.cons_append, readDigits_cons, if_pos h.1, valAcc_cons]
    exact ih _ rest h.2

/-- Reading digits stops at a non-digit. -/
theorem readDigits_stop (acc : Nat) (rest : List Char)
    (h : notDigStart rest = true) : readDigits acc rest = (acc, rest) := by
  cases rest with
  | nil => rfl
  | cons c tl =>
    simp only [notDigStart] at h
    rw [readDigits_cons, if_neg]
    simp_all

/-- Reading fraction digits consumes a digit run, accumulating value and
count. -/
theorem readFrac_run (ds : List Char) : ∀ acc e rest, allDig ds = true →
    readFrac acc e (ds ++ rest) =
      readFrac (valAcc acc ds) (e + ds.length) rest := by
  induction ds with
  | nil => intro acc e rest _; rw [valAcc_nil]; rfl
  | cons c tl ih =>
    intro acc e rest h
    simp only [allDig, Bool.and_eq_true] at h
    rw [List.cons_append, readFrac_cons, if_pos h.1, valAcc_cons]
    rw [ih _ _ rest h.2]
    simp only [List.length_cons]
    congr 1
    omega

/-- Reading fraction digits stops at a non-digit. -/
theorem readFrac_stop (acc e : Nat) (rest : List Char)
    (h : notDigStart rest = true) : readFrac acc e rest = (acc, e, rest) := by
  cases rest with
  | nil => rfl
  | cons c tl =>
    simp only [notDigStart] at h
    rw [readFrac_cons, if_neg]
    simp_all

/-- The digit expansion of a non-zero number begins with a non-zero
digit. -/
theorem digitsSpec_head_ne0 (n : Nat) (h : n ≠ 0) :
    ∃ d tl2, digitsSpec n = digitChar d :: tl2 ∧ d < 10 ∧ d ≠ 0 := by
  induction n using Nat.strong_induction_on with
  | _ n ih =>
    by_cases h10 : n < 10
    · exact ⟨n, [], by rw [digitsSpec, dif_pos h10], h10, h⟩
    · obtain ⟨d, tl2, hds, hd10, hd0⟩ :=
        ih (n / 10) (Nat.div_lt_self (by omega) (by omega))
          (by omega)
      exact ⟨d, tl2 ++ [digitChar (n % 10)],
        by rw [digitsSpec, dif_neg h10, hds]; simp, hd10, hd0⟩

/-- Characters differ when their code points differ. -/
theorem char_ne_of_toNat_ne (a b : Char) (h : a.toNat ≠ b.toNat) : a ≠ b :=
  fun he => h (he ▸ rfl)

/-- A number delimiter starts with no digit. -/
theorem delimOk_notDigStart (rest : List Char) (h : delimOk rest = true) :
    notDigStart rest = true := by
  cases rest with
  | nil => rfl
  | cons c tl =>
    simp only [delimOk, Bool.not_eq_true', Bool.or_eq_false_iff] at h
    simp [notDigStart, h.1]

/-- A number delimiter starts with no dot. -/
theorem delimOk_head (c : Char) (tl : List Char)
    (h : delimOk (c :: tl) = true) : isDig c = false ∧ c ≠ '.' := by
  simp only [delimOk, Bool.not_eq_true', Bool.or_eq_false_iff] at h
  exact ⟨h.1, by simpa using h.2⟩

/-- Continuing a number at a delimiter yields no fraction. -/
theorem pNumAfterInt_noDot (n : Nat) (rest : List Char)
    (h : delimOk rest = true) : pNumAfterInt n rest = some ((n, 0), rest) := by
  cases rest with
  | nil => rfl
  | cons c tl =>
    obtain ⟨_, hdot⟩ := delimOk_head c tl h
    simp [pNumAfterInt, hdot]

/-- Continuing a number at a dot consumes the emitted fraction run. -/
theorem pNumAfterInt_frac (n : Nat) (ds : List Char) (rest : List Char)
    (hds : allDig ds = true) (hne : ds ≠ []) (h : delimOk rest = true) :
    pNumAfterInt n ('.' :: (ds ++ rest)) =
      some ((valAcc n ds, ds.length), rest) := by
  cases ds with
  | nil => exact absurd rfl hne
  | cons c2 tl2 =>
    simp only [allDig, Bool.and_eq_true] at hds
    simp only [pNumAfterInt, if_pos rfl, List.cons_append, if_pos hds.1]
    rw [show (c2 :: (tl2 ++ rest)) = (c2 :: tl2) ++ rest from rfl]
    rw [readFrac_run (c2 :: tl2) n 0 rest
      (by simp [allDig, hds.1, hds.2])]
    rw [readFrac_stop _ _ rest (delimOk_notDigStart rest h)]
    simp

/-- The unsigned decimal body of `decStr` (digits of `n`, a fraction
point when `e > 0`). -/
def udec (n e : Nat) : List Char :=
  let ds := natDigits n
  if e = 0 then ds
  else
    let ds2 := List.replicate (e + 1 - ds.length) '0' ++ ds
    ds2.take (ds2.length - e) ++ '.' :: ds2.drop (ds2.length - e)

/-- The signed decimal text is a sign and the unsigned body. -/
theorem decStr_udec (m : Int) (e : Nat) :
    decStr m e = (if m < 0 then ['-'] else []) ++ udec m.natAbs e := by
  by_cases he : e = 0 <;> simp [decStr, udec, he]

/-- The value of the whole digit expansion from accumulator zero. -/
theorem valAcc_digitsSpec0 (n : Nat) : valAcc 0 (digitsSpec n) = n := by
  rw [valAcc_digitsSpec n 0]
  ring

/-- Parsing the digits of `n` at a delimiter yields `n` with no
fraction. -/
theorem pNumPos_digits (n : Nat) (rest : List Char)
    (h : delimOk rest = true) :
    pNumPos (digitsSpec n ++ rest) = some ((n, 0), rest) := by
  by_cases h0 : n = 0
  · subst h0
    have hds : digitsSpec 0 = ['0'] := by rw [digitsSpec]; rfl
    rw [hds]
    simp only [List.cons_append, List.nil_append, pNumPos, if_pos rfl]
    exact pNumAfterInt_noDot 0 rest h
  · obtain ⟨d, tl2, hds, hd10, hd0⟩ := digitsSpec_head_ne0 n h0
    rw [hds]
    have hdig : isDig (digitChar d) = true := isDig_digitChar d hd10
    have hne0 : digitChar d ≠ '0' := by
      apply char_ne_of_toNat_ne
      rw [digitChar_toNat d hd10]
      have h48 : Char.toNat '0' = 48 := rfl
      omega
    simp only [List.cons_append, pNumPos, if_neg hne0, if_pos hdig]
    have htl : allDig tl2 = true := by
      have := allDig_digitsSpec n
      rw [hds] at this
      simp only [allDig, Bool.and_eq_true] at this
      exact this.2
    rw [readDigits_run tl2 _ rest htl]
    rw [readDigits_stop _ rest (delimOk_notDigStart rest h)]
    have hval : valAcc ((digitChar d).toNat - 48) tl2 = n := by
      have hv := valAcc_digitsSpec0 n
      rw [hds, valAcc_cons] at hv
      simpa using hv
    rw [hval]
    exact pNumAfterInt_noDot n rest h

/-- Zero runs are digit runs. -/
theorem allDig_replicate_zero (j : Nat) :
    allDig (List.replicate j '0') = true := by
  induction j with
  | zero => rfl
  | succ j ih => simp [List.replicate, allDig, isDig, ih]

/-- The digit expansion is never empty. -/
theorem digitsSpec_length_pos (n : Nat) : 1 ≤ (digitsSpec n).length := by
  rw [digitsSpec]
  split <;> simp

/-- The digit expansion of zero. -/
theorem digitsSpec_zero : digitsSpec 0 = ['0'] := by rw [digitsSpec]; rfl

/-- The digit expansion begins with a digit character. -/
theorem digitsSpec_head (n : Nat) :
    ∃ d tl2, digitsSpec n = digitChar d :: tl2 ∧ d < 10 := by
  by_cases h0 : n = 0
  · subst h0
    exact ⟨0, [], by rw [digitsSpec_zero]; rfl, by omega⟩
  · obtain ⟨d, tl2, hds, hd10, _⟩ := digitsSpec_head_ne0 n h0
    exact ⟨d, tl2, hds, hd10⟩

/-- Parsing the unsigned decimal body of `n` with `e` fraction digits. -/
theorem pNumPos_udec (n e : Nat) (rest : List Char)
    (h : delimOk rest = true) :
    pNumPos (udec n e ++ rest) = some ((n, e), rest) := by
  by_cases he : e = 0
  · subst he
    unfold udec
    rw [if_pos rfl, natDigits_eq_spec]
    exact pNumPos_digits n rest h
  · unfold udec
    rw [if_neg he, natDigits_eq_spec]
    dsimp only
    have hlen1 := digitsSpec_length_pos n
    have hADds := allDig_digitsSpec n
    by_cases hle : (digitsSpec n).length ≤ e
    · -- padded case: the integer part is the single digit zero
      have hk : e + 1 - (digitsSpec n).length =
          (e - (digitsSpec n).length) + 1 := by omega
      rw [hk, List.replicate_succ, List.cons_append]
      set ds := digitsSpec n
      set j := e - ds.length with hj
      have hlen2 : ('0' :: (List.replicate j '0' ++ ds)).length = e + 1 := by
        simp
        omega
      rw [hlen2]
      have htake : ('0' :: (List.replicate j '0' ++ ds)).take (e + 1 - e) =
          ['0'] := by
        have : e + 1 - e = 1 := by omega
        rw [this]
        rfl
      have hdrop : ('0' :: (List.replicate j '0' ++ ds)).drop (e + 1 - e) =
          List.replicate j '0' ++ ds := by
        have : e + 1 - e = 1 := by omega
        rw [this]
        rfl
      rw [htake, hdrop]
      simp only [List.cons_append, List.nil_append]
      have hdsne : ds ≠ [] := by
        intro hh
        rw [hh] at hlen1
        simp at hlen1
      simp only [pNumPos, if_pos rfl, if_true]
      rw [pNumAfterInt_frac 0 (List.replicate j '0' ++ ds) rest
        (by rw [allDig_append]; simp [allDig_replicate_zero, hADds])
        (by simp [hdsne]) h]
      have hval : valAcc 0 (List.replicate j '0' ++ ds) = n := by
        rw [valAcc_append, valAcc_zeros]
        simpa using valAcc_digitsSpec0 n
      have hlen3 : (List.replicate j '0' ++ ds).length = e := by
        simp
        omega
      rw [hval, hlen3]
    · -- unpadded case: the integer part keeps a non-zero leading digit
      have hk : e + 1 - (digitsSpec n).length = 0 := by omega
      rw [hk, List.replicate_zero, List.nil_append]
      have h0 : n ≠ 0 := by
        intro h0
        rw [h0, digitsSpec_zero] at hle
        simp at hle
        omega
      obtain ⟨d, tl0, hds, hd10, hd0⟩ := digitsSpec_head_ne0 n h0
      rw [hds]
      have hlen : (digitChar d :: tl0).length = tl0.length + 1 := by simp
      rw [hlen]
      have hsub : tl0.length + 1 - e = (tl0.length - e) + 1 := by
        rw [hds] at hle
        simp at hle
        omega
      rw [hsub, List.take_succ_cons, List.drop_succ_cons]
      simp only [List.cons_append]
      have hne0 : digitChar d ≠ '0' := by
        apply char_ne_of_toNat_ne
        rw [digitChar_toNat d hd10]
        have h48 : Char.toNat '0' = 48 := rfl
        omega
      have hADtl : allDig tl0 = true := by
        rw [hds] at hADds
        simp only [allDig, Bool.and_eq_true] at hADds
        exact hADds.2
      have hADtake : allDig (tl0.take (tl0.length - e)) = true := by
        have := hADtl
        conv at this => rw [← List.take_append_drop (tl0.length - e) tl0]
        rw [allDig_append, Bool.and_eq_true] at this
        exact this.1
      have hADdrop : allDig (tl0.drop (tl0.length - e)) = true := by
        have := hADtl
        conv at this => rw [← List.take_append_drop (tl0.length - e) tl0]
        rw [allDig_append, Bool.and_eq_true] at this
        exact this.2
      simp only [pNumPos, if_neg hne0, if_pos (isDig_digitChar d hd10)]
      rw [List.append_assoc]
      rw [readDigits_run _ _ _ hADtake]
      rw [readDigits_stop _ _ (by simp [notDigStart, isDig])]
      rw [List.cons_append]
      rw [pNumAfterInt_frac _ _ rest hADdrop
        (by
          intro hnil
          have := congrArg List.length hnil
          rw [hds] at hle
          simp at this hle
          omega) h]
      have hval : valAcc (valAcc ((digitChar d).toNat - 48)
          (tl0.take (tl0.length - e))) (tl0.drop (tl0.length - e)) = n := by
        rw [← valAcc_append, List.take_append_drop]
        have hv := valAcc_digitsSpec0 n
        rw [hds, valAcc_cons] at hv
        simpa using hv
      have hlen4 : (tl0.drop (tl0.length - e)).length = e := by
        rw [hds] at hle
        simp at hle ⊢
        omega
      rw [hval, hlen4]

/-- The unsigned decimal body begins with a digit character. -/
theorem udec_head (n e : Nat) :
    ∃ d tl2, udec n e = digitChar d :: tl2 ∧ d < 10 := by
  unfold udec
  by_cases he : e = 0
  · rw [if_pos he, natDigits_eq_spec]
    exact digitsSpec_head n
  · rw [if_neg he, natDigits_eq_spec]
    dsimp only
    have hlen1 := digitsSpec_length_pos n
    by_cases hle : (digitsSpec n).length ≤ e
    · have hk : e + 1 - (digitsSpec n).length =
          (e - (digitsSpec n).length) + 1 := by omega
      rw [hk, List.replicate_succ, List.cons_append]
      set ds := digitsSpec n
      set j := e - ds.length
      have hlen2 : ('0' :: (List.replicate j '0' ++ ds)).length = e + 1 := by
        simp
        omega
      rw [hlen2]
      have htake : List.take (e + 1 - e)
          ('0' :: (List.replicate j '0' ++ ds)) = ['0'] := by
        have : e + 1 - e = 1 := by omega
        rw [this]
        rfl
      rw [htake]
      exact ⟨0, '.' :: List.drop (e + 1 - e)
        ('0' :: (List.replicate j '0' ++ ds)), rfl, by omega⟩
    · have hk : e + 1 - (digitsSpec n).length = 0 := by omega
      rw [hk, List.replicate_zero, List.nil_append]
      obtain ⟨d, tl0, hds, hd10⟩ := digitsSpec_head n
      rw [hds]
      have hsub : (digitChar d :: tl0).length - e = (tl0.length - e) + 1 := by
        simp only [List.length_cons]
        rw [hds] at hle
        simp at hle
        omega
      rw [hsub, List.take_succ_cons]
      exact ⟨d, _, rfl, hd10⟩

/-- Parsing the emitted decimal of `m / 10 ^ e` at a delimiter recovers
the number. -/
theorem pNum_decStr (m : Int) (e : Nat) (rest : List Char)
    (h : delimOk rest = true) :
    pNum (decStr m e ++ rest) = some (.num m e, rest) := by
  rw [decStr_udec]
  by_cases hm : m < 0
  · rw [if_pos hm]
    have hassoc : (['-'] ++ udec m.natAbs e) ++ rest =
        '-' :: (udec m.natAbs e ++ rest) := by simp
    rw [hassoc]
    simp only [pNum, if_pos rfl, if_true]
    rw [pNumPos_udec _ _ _ h]
    dsimp only
    have hneg : -((m.natAbs : Int)) = m := by omega
    rw [hneg]
  · rw [if_neg hm]
    rw [List.nil_append]
    obtain ⟨d, tl2, hu, hd10⟩ := udec_head m.natAbs e
    rw [hu, List.cons_append]
    have hnm : digitChar d ≠ '-' := by
      apply char_ne_of_toNat_ne
      rw [digitChar_toNat d hd10]
      have h45 : Char.toNat '-' = 45 := rfl
      omega
    simp only [pNum, if_neg hnm]
    rw [← List.cons_append, ← hu]
    rw [pNumPos_udec _ _ _ h]
    dsimp only
    have hpos : ((m.natAbs : Int)) = m := by omega
    rw [hpos]

/-- Hexadecimal digits evaluate back to their value. -/
theorem hexVal_hexDigit (k : Nat) (h : k < 16) :
    hexVal (hexDigit k) = some k := by
  interval_cases k <;> rfl

/-- The four emitted hexadecimal digits evaluate back to `n`. -/
theorem hex4Val_hex4 (n : Nat) (h : n < 65536) :
    hex4Val (hexDigit (n / 4096 % 16)) (hexDigit (n / 256 % 16))
      (hexDigit (n / 16 % 16)) (hexDigit (n % 16)) = some n := by
  unfold hex4Val
  rw [hexVal_hexDigit _ (Nat.mod_lt _ (by omega)),
    hexVal_hexDigit _ (Nat.mod_lt _ (by omega)),
    hexVal_hexDigit _ (Nat.mod_lt _ (by omega)),
    hexVal_hexDigit _ (Nat.mod_lt _ (by omega))]
  dsimp only
  congr 1
  omega


/-- String-body parsing stops at an unescaped quote. -/
theorem pStrBody_quote (fuel : Nat) (tl : List Char) :
    pStrBody (fuel + 1) ('"' :: tl) = some ([], tl) := by
  simp only [pStrBody, if_pos rfl, if_true]

/-- String-body parsing of an unescaped character. -/
theorem pStrBody_plain (fuel : Nat) (c : Char) (tl : List Char)
    (h1 : c ≠ '"') (h2 : c ≠ '\\') (h3 : ¬ c.toNat < 32) :
    pStrBody (fuel + 1) (c :: tl) = pcons c (pStrBody fuel tl) := by
  simp only [pStrBody, if_neg h1, if_neg h2, if_neg h3]

/-- String-body parsing of a backslash hands over to the escape decoder. -/
theorem pStrBody_esc_step (fuel : Nat) (tl : List Char) (ch : Char)
    (tl2 : List Char) (h : decodeEsc tl = some (ch, tl2)) :
    pStrBody (fuel + 1) ('\\' :: tl) = pcons ch (pStrBody fuel tl2) := by
  have hq : ('\\' : Char) ≠ '"' := by decide
  simp only [pStrBody, if_neg hq, if_pos rfl, if_true, h]

/-- Every character codepoint avoids the surrogate range and the
out-of-range codes. -/
theorem char_valid_nat (c : Char) :
    c.toNat < 55296 ∨ (57343 < c.toNat ∧ c.toNat < 1114112) := by
  have h := c.valid
  unfold UInt32.isValidChar at h
  unfold Nat.isValidChar at h
  have ht : c.toNat = c.val.toNat := rfl
  rcases h with h | ⟨h1, h2⟩
  · exact Or.inl (by omega)
  · exact Or.inr ⟨by omega, by omega⟩

/-- Decoding a four-digit escape of a basic-plane non-surrogate
codepoint. -/
theorem decodeU_bmp (c : Char) (s : List Char) (h : c.toNat < 65536)
    (hv : c.toNat < 55296 ∨ 57343 < c.toNat) :
    decodeU (hex4 c.toNat ++ s) = some (c, s) := by
  simp only [hex4, List.cons_append, List.nil_append]
  simp only [decodeU]
  rw [hex4Val_hex4 c.toNat h]
  dsimp only
  rw [if_neg (by omega : ¬ (55296 ≤ c.toNat ∧ c.toNat ≤ 56319)),
    if_neg (by omega : ¬ (56320 ≤ c.toNat ∧ c.toNat ≤ 57343))]
  rw [Char.ofNat_toNat]

/-- Decoding a surrogate pair with the hexadecimal digits abstract. -/
theorem decodeU_surr (x1 x2 x3 x4 y1 y2 y3 y4 : Char) (s : List Char)
    (hi lo : Nat)
    (hx : hex4Val x1 x2 x3 x4 = some hi) (hy : hex4Val y1 y2 y3 y4 = some lo)
    (hir : 55296 ≤ hi ∧ hi ≤ 56319) (hlr : 56320 ≤ lo ∧ lo ≤ 57343) :
    decodeU (x1 :: x2 :: x3 :: x4 :: '\\' :: 'u' :: y1 :: y2 :: y3 :: y4 :: s)
      = some (Char.ofNat (65536 + (hi - 55296) * 1024 + (lo - 56320)), s) := by
  unfold decodeU
  try dsimp only
  rw [hx]
  try dsimp only
  rw [if_pos hir]
  try dsimp only
  rw [if_pos rfl, if_pos rfl, hy]
  try dsimp only
  rw [if_pos hlr]

/-- Decoding the surrogate pair of an astral codepoint. -/
theorem decodeU_astral (c : Char) (s : List Char) (h : 65536 ≤ c.toNat) :
    decodeU (hex4 (55296 + (c.toNat - 65536) / 1024) ++
      ('\\' :: 'u' :: (hex4 (56320 + (c.toNat - 65536) % 1024) ++ s))) =
      some (c, s) := by
  have hlt : c.toNat < 1114112 := by
    rcases char_valid_nat c with h1 | ⟨_, h2⟩ <;> omega
  have hhi : 55296 + (c.toNat - 65536) / 1024 < 65536 := by omega
  have hlo : 56320 + (c.toNat - 65536) % 1024 < 65536 := by
    have := Nat.mod_lt (c.toNat - 65536) (show 0 < 1024 by omega)
    omega
  simp only [hex4, List.cons_append, List.nil_append]
  rw [decodeU_surr _ _ _ _ _ _ _ _ _ _ _ (hex4Val_hex4 _ hhi)
    (hex4Val_hex4 _ hlo) (by omega)
    (by
      have := Nat.mod_lt (c.toNat - 65536) (show 0 < 1024 by omega)
      omega)]
  have harith : 65536 + (55296 + (c.toNat - 65536) / 1024 - 55296) * 1024 +
      (56320 + (c.toNat - 65536) % 1024 - 56320) = c.toNat := by
    have := Nat.div_add_mod (c.toNat - 65536) 1024
    omega
  rw [harith, Char.ofNat_toNat]

/-- Escaping distributes over cons. -/
theorem escStr_cons (c : Char) (l : List Char) :
    escStr (c :: l) = escChar c ++ escStr l := rfl

/-- The serializer's escape of a control character not among the named
escapes. -/
theorem escChar_of_ctrl (c : Char) (h3 : c ≠ '\n') (h4 : c ≠ '\t')
    (h5 : c ≠ '\x0d') (h6 : c ≠ '\x08') (h7 : c ≠ '\x0c')
    (h8 : c.toNat < 32) : escChar c = '\\' :: 'u' :: hex4 c.toNat := by
  have h1 : c ≠ '"' := by intro e; rw [e] at h8; exact absurd h8 (by decide)
  have h2 : c ≠ '\\' := by intro e; rw [e] at h8; exact absurd h8 (by decide)
  unfold escChar
  rw [if_neg h1, if_neg h2, if_neg h3, if_neg h4, if_neg h5, if_neg h6,
    if_neg h7, if_pos h8]

/-- The serializer leaves printable ASCII other than the quote and the
backslash alone. -/
theorem escChar_of_print (c : Char) (h1 : c ≠ '"') (h2 : c ≠ '\\')
    (h8 : ¬ c.toNat < 32) (h9 : c.toNat < 127) : escChar c = [c] := by
  have h3 : c ≠ '\n' := by intro e; rw [e] at h8; exact h8 (by decide)
  have h4 : c ≠ '\t' := by intro e; rw [e] at h8; exact h8 (by decide)
  have h5 : c ≠ '\x0d' := by intro e; rw [e] at h8; exact h8 (by decide)
  have h6 : c ≠ '\x08' := by intro e; rw [e] at h8; exact h8 (by decide)
  have h7 : c ≠ '\x0c' := by intro e; rw [e] at h8; exact h8 (by decide)
  unfold escChar
  rw [if_neg h1, if_neg h2, if_neg h3, if_neg h4, if_neg h5, if_neg h6,
    if_neg h7, if_neg h8, if_pos h9]

/-- The serializer's escape of a non-ASCII basic-plane character. -/
theorem escChar_of_bmp (c : Char) (h9 : ¬ c.toNat < 127)
    (h10 : c.toNat < 65536) : escChar c = '\\' :: 'u' :: hex4 c.toNat := by
  have h1 : c ≠ '"' := by intro e; rw [e] at h9; exact h9 (by decide)
  have h2 : c ≠ '\\' := by intro e; rw [e] at h9; exact h9 (by decide)
  have h3 : c ≠ '\n' := by intro e; rw [e] at h9; exact h9 (by decide)
  have h4 : c ≠ '\t' := by intro e; rw [e] at h9; exact h9 (by decide)
  have h5 : c ≠ '\x0d' := by intro e; rw [e] at h9; exact h9 (by decide)
  have h6 : c ≠ '\x08' := by intro e; rw [e] at h9; exact h9 (by decide)
  have h7 : c ≠ '\x0c' := by intro e; rw [e] at h9; exact h9 (by decide)
  have h8 : ¬ c.toNat < 32 := by omega
  unfold escChar
  rw [if_neg h1, if_neg h2, if_neg h3, if_neg h4, if_neg h5, if_neg h6,
    if_neg h7, if_neg h8, if_neg h9, if_pos h10]

/-- The serializer's surrogate-pair escape of an astral character. -/
theorem escChar_of_astral (c : Char) (h10 : ¬ c.toNat < 65536) :
    escChar c = '\\' :: 'u' :: hex4 (55296 + (c.toNat - 65536) / 1024) ++
      ('\\' :: 'u' :: hex4 (56320 + (c.toNat - 65536) % 1024)) := by
  have h1 : c ≠ '"' := by intro e; rw [e] at h10; exact h10 (by decide)
  have h2 : c ≠ '\\' := by intro e; rw [e] at h10; exact h10 (by decide)
  have h3 : c ≠ '\n' := by intro e; rw [e] at h10; exact h10 (by decide)
  have h4 : c ≠ '\t' := by intro e; rw [e] at h10; exact h10 (by decide)
  have h5 : c ≠ '\x0d' := by intro e; rw [e] at h10; exact h10 (by decide)
  have h6 : c ≠ '\x08' := by intro e; rw [e] at h10; exact h10 (by decide)
  have h7 : c ≠ '\x0c' := by intro e; rw [e] at h10; exact h10 (by decide)
  have h8 : ¬ c.toNat < 32 := by omega
  have h9 : ¬ c.toNat < 127 := by omega
  unfold escChar
  rw [if_neg h1, if_neg h2, if_neg h3, if_neg h4, if_neg h5, if_neg h6,
    if_neg h7, if_neg h8, if_neg h9, if_neg h10]

/-- The escape decoder hands a `u` escape to the four-digit decoder. -/
theorem decodeEsc_u (s : List Char) : decodeEsc ('u' :: s) = decodeU s := rfl

/-- Parsing one emitted escape-or-literal character consumes it and
decodes back the original character. -/
theorem pStrBody_escChar (c : Char) (fuel : Nat) (s : List Char) :
    pStrBody (fuel + 1) (escChar c ++ s) = pcons c (pStrBody fuel s) := by
  by_cases h1 : c = '"'
  · subst h1
    rw [show escChar '"' = ['\\', '"'] from rfl, List.cons_append,
      List.cons_append, List.nil_append]
    exact pStrBody_esc_step fuel _ '"' s rfl
  by_cases h2 : c = '\\'
  · subst h2
    rw [show escChar '\\' = ['\\', '\\'] from rfl, List.cons_append,
      List.cons_append, List.nil_append]
    exact pStrBody_esc_step fuel _ '\\' s rfl
  by_cases h3 : c = '\n'
  · subst h3
    rw [show escChar '\n' = ['\\', 'n'] from rfl, List.cons_append,
      List.cons_append, List.nil_append]
    exact pStrBody_esc_step fuel _ '\n' s rfl
  by_cases h4 : c = '\t'
  · subst h4
    rw [show escChar '\t' = ['\\', 't'] from rfl, List.cons_append,
      List.cons_append, List.nil_append]
    exact pStrBody_esc_step fuel _ '\t' s rfl
  by_cases h5 : c = '\x0d'
  · subst h5
    rw [show escChar '\x0d' = ['\\', 'r'] from rfl, List.cons_append,
      List.cons_append, List.nil_append]
    exact pStrBody_esc_step fuel _ '\x0d' s rfl
  by_cases h6 : c = '\x08'
  · subst h6
    rw [show escChar '\x08' = ['\\', 'b'] from rfl, List.cons_append,
      List.cons_append, List.nil_append]
    exact pStrBody_esc_step fuel _ '\x08' s rfl
  by_cases h7 : c = '\x0c'
  · subst h7
    rw [show escChar '\x0c' = ['\\', 'f'] from rfl, List.cons_append,
      List.cons_append, List.nil_append]
    exact pStrBody_esc_step fuel _ '\x0c' s rfl
  by_cases h8 : c.toNat < 32
  · rw [escChar_of_ctrl c h3 h4 h5 h6 h7 h8, List.cons_append,
      List.cons_append]
    have hb : decodeU (hex4 c.toNat ++ s) = some (c, s) :=
      decodeU_bmp c s (by omega) (Or.inl (by omega))
    exact pStrBody_esc_step fuel _ c s ((decodeEsc_u _).trans hb)
  by_cases h9 : c.toNat < 127
  · rw [escChar_of_print c h1 h2 h8 h9, List.cons_append, List.nil_append]
    exact pStrBody_plain fuel c s h1 h2 h8
  by_cases h10 : c.toNat < 65536
  · rw [escChar_of_bmp c h9 h10, List.cons_append, List.cons_append]
    have hv : c.toNat < 55296 ∨ 57343 < c.toNat := by
      rcases char_valid_nat c with h | ⟨h, _⟩
      · exact Or.inl h
      · exact Or.inr h
    have hb : decodeU (hex4 c.toNat ++ s) = some (c, s) :=
      decodeU_bmp c s h10 hv
    exact pStrBody_esc_step fuel _ c s ((decodeEsc_u _).trans hb)
  · rw [escChar_of_astral c h10, List.cons_append, List.cons_append,
      List.append_assoc, List.cons_append, List.cons_append]
    have hb := decodeU_astral c s (by omega)
    exact pStrBody_esc_step fuel _ c s ((decodeEsc_u _).trans hb)

/-- Every character escape is at least one character long. -/
theorem escChar_length_pos (c : Char) : 1 ≤ (escChar c).length := by
  by_cases h1 : c = '"'
  · rw [h1]; decide
  by_cases h2 : c = '\\'
  · rw [h2]; decide
  by_cases h3 : c = '\n'
  · rw [h3]; decide
  by_cases h4 : c = '\t'
  · rw [h4]; decide
  by_cases h5 : c = '\x0d'
  · rw [h5]; decide
  by_cases h6 : c = '\x08'
  · rw [h6]; decide
  by_cases h7 : c = '\x0c'
  · rw [h7]; decide
  by_cases h8 : c.toNat < 32
  · rw [escChar_of_ctrl c h3 h4 h5 h6 h7 h8]
    simp only [hex4, List.length_cons]
    omega
  by_cases h9 : c.toNat < 127
  · rw [escChar_of_print c h1 h2 h8 h9]
    simp only [List.length_singleton]
    omega
  by_cases h10 : c.toNat < 65536
  · rw [escChar_of_bmp c h9 h10]
    simp only [hex4, List.length_cons]
    omega
  · rw [escChar_of_astral c h10]
    simp only [hex4, List.cons_append, List.nil_append, List.length_cons,
      List.length_append]
    omega

/-- Escaping never shortens a string. -/
theorem escStr_length_ge (l : List Char) : l.length ≤ (escStr l).length := by
  induction l with
  | nil => simp [escStr]
  | cons c tl ih =>
    rw [escStr_cons, List.length_append, List.length_cons]
    have := escChar_length_pos c
    omega

/-- Parsing the escaped body of a string through the closing quote
recovers the original characters, given fuel beyond the string length. -/
theorem pStrBody_escStr (l : List Char) : ∀ fuel rest, l.length + 1 ≤ fuel →
    pStrBody fuel (escStr l ++ ('"' :: rest)) = some (l, rest) := by
  induction l with
  | nil =>
    intro fuel rest h
    cases fuel with
    | zero => omega
    | succ f =>
      rw [show escStr [] = [] from rfl, List.nil_append]
      exact pStrBody_quote f rest
  | cons c tl ih =>
    intro fuel rest h
    cases fuel with
    | zero => simp at h
    | succ f =>
      rw [escStr_cons, List.append_assoc, pStrBody_escChar]
      rw [ih f rest (by simp only [List.length_cons] at h; omega)]
      rfl

/-- With the input length as fuel (as the value parser supplies it) the
string body round-trips. -/
theorem pStrBody_full (l rest : List Char) :
    pStrBody (escStr l ++ '"' :: rest).length (escStr l ++ '"' :: rest) =
      some (l, rest) := by
  apply pStrBody_escStr
  have h := escStr_length_ge l
  simp only [List.length_append, List.length_cons]
  omega

/-- Rebuilding a string from its character data is the identity. -/
theorem strMkData (s : String) : String.mk s.data = s := rfl

/-- Every value has positive parse weight. -/
theorem jweight_pos (v : JVal) : 1 ≤ jweight v := by
  cases v <;> simp only [jweight] <;> omega

/-- A character is not JSON whitespace when its code differs from the
four whitespace codes. -/
theorem isWs_eq_false (c : Char) (h32 : c.toNat ≠ 32) (h9 : c.toNat ≠ 9)
    (h10 : c.toNat ≠ 10) (h13 : c.toNat ≠ 13) : isWs c = false := by
  simp only [isWs, Bool.or_eq_false_iff, decide_eq_false_iff_not]
  refine ⟨⟨⟨?_, ?_⟩, ?_⟩, ?_⟩ <;> apply char_ne_of_toNat_ne
  · have : (' ' : Char).toNat = 32 := rfl
    omega
  · have : ('\t' : Char).toNat = 9 := rfl
    omega
  · have : ('\n' : Char).toNat = 10 := rfl
    omega
  · have : ('\x0d' : Char).toNat = 13 := rfl
    omega

/-- The serialization of a value starts with a character that is not
whitespace and not a closing bracket. -/
theorem emitV_head (v : JVal) (lvl : Nat) : ∃ c cs, emitV v lvl = c :: cs ∧
    isWs c = false ∧ c ≠ ']' ∧ c ≠ '\x7d' := by
  cases v with
  | null => exact ⟨'n', _, rfl, by decide, by decide, by decide⟩
  | bool b => cases b with
    | false => exact ⟨'f', _, rfl, by decide, by decide, by decide⟩
    | true => exact ⟨'t', _, rfl, by decide, by decide, by decide⟩
  | num m e =>
    have he : emitV (.num m e) lvl = decStr m e := rfl
    rw [he, decStr_udec]
    by_cases hm : m < 0
    · rw [if_pos hm]
      obtain ⟨d, tl2, hu, hd⟩ := udec_head m.natAbs e
      refine ⟨'-', udec m.natAbs e, by simp, by decide, by decide, by decide⟩
    · rw [if_neg hm, List.nil_append]
      obtain ⟨d, tl2, hu, hd⟩ := udec_head m.natAbs e
      have htn : (digitChar d).toNat = 48 + d := digitChar_toNat d hd
      refine ⟨digitChar d, tl2, hu, ?_, ?_, ?_⟩
      · exact isWs_eq_false _ (by omega) (by omega) (by omega) (by omega)
      · apply char_ne_of_toNat_ne
        have : (']' : Char).toNat = 93 := rfl
        omega
      · apply char_ne_of_toNat_ne
        have : ('\x7d' : Char).toNat = 125 := rfl
        omega
  | str s => exact ⟨'"', _, rfl, by decide, by decide, by decide⟩
  | arr xs => cases xs with
    | nil => exact ⟨'[', _, rfl, by decide, by decide, by decide⟩
    | cons v tl => exact ⟨'[', _, rfl, by decide, by decide, by decide⟩
  | obj kvs => cases kvs with
    | nil => exact ⟨'\x7b', _, rfl, by decide, by decide, by decide⟩
    | cons k v tl => exact ⟨'\x7b', _, rfl, by decide, by decide, by decide⟩

/-- Inserting a fresh key appends it at the end. -/
theorem objInsert_notIn : ∀ (acc : JObj) (k : String) (v : JVal),
    keysNotIn k acc = true → objInsert acc k v = objAppend acc (.cons k v .nil)
  | .nil, _, _, _ => rfl
  | .cons k0 v0 tl, k, v, h => by
    simp only [keysNotIn] at h
    split at h
    · exact absurd h (by simp)
    · simp only [objInsert, objAppend]
      rw [if_neg (by assumption)]
      rw [objInsert_notIn tl k v h]

/-- Object concatenation is associative. -/
theorem objAppend_assoc : ∀ (a b c : JObj),
    objAppend (objAppend a b) c = objAppend a (objAppend b c)
  | .nil, _, _ => rfl
  | .cons k v tl, b, c => by
    simp only [objAppend]
    rw [objAppend_assoc tl b c]

/-- Key absence distributes over concatenation. -/
theorem keysNotIn_append : ∀ (x : String) (a b : JObj),
    keysNotIn x (objAppend a b) = (keysNotIn x a && keysNotIn x b)
  | _, .nil, _ => by simp [objAppend, keysNotIn]
  | x, .cons k v tl, b => by
    simp only [objAppend, keysNotIn]
    split
    · rfl
    · exact keysNotIn_append x tl b

/-- Appending one fresh member preserves key disjointness with the
remaining members. -/
theorem disjointKeys_snoc : ∀ (tl acc : JObj) (k : String) (v : JVal),
    disjointKeys acc tl = true → keysNotIn k tl = true →
    disjointKeys (objAppend acc (.cons k v .nil)) tl = true
  | .nil, _, _, _, _, _ => rfl
  | .cons k2 v2 tl2, acc, k, v, hd, hk => by
    simp only [disjointKeys, Bool.and_eq_true] at hd ⊢
    simp only [keysNotIn] at hk
    split at hk
    · exact absurd hk (by simp)
    · refine ⟨?_, disjointKeys_snoc tl2 acc k v hd.2 hk⟩
      rw [keysNotIn_append]
      simp only [Bool.and_eq_true]
      refine ⟨hd.1, ?_⟩
      simp only [keysNotIn]
      have hne : ¬ k = k2 := by
        intro e
        subst e
        simp_all
      rw [if_neg hne]

/-- Nothing clashes with an empty accumulator. -/
theorem disjointKeys_nil : ∀ (b : JObj), disjointKeys .nil b = true
  | .nil => rfl
  | .cons k v tl => by
    simp only [disjointKeys, keysNotIn, Bool.true_and]
    exact disjointKeys_nil tl

/-- The decimal text of a number starts with a minus sign or a digit,
which no other token dispatch consumes. -/
theorem decStr_head (m : Int) (e : Nat) : ∃ c cs, decStr m e = c :: cs ∧
    isWs c = false ∧ c ≠ 'n' ∧ c ≠ 't' ∧ c ≠ 'f' ∧ c ≠ '"' ∧ c ≠ '[' ∧
    c ≠ '\x7b' := by
  have hbound : ∃ c cs, decStr m e = c :: cs ∧
      (c.toNat = 45 ∨ (48 ≤ c.toNat ∧ c.toNat ≤ 57)) := by
    rw [decStr_udec]
    by_cases hm : m < 0
    · rw [if_pos hm]
      exact ⟨'-', udec m.natAbs e, by simp, Or.inl rfl⟩
    · rw [if_neg hm, List.nil_append]
      obtain ⟨d, tl2, hu, hd⟩ := udec_head m.natAbs e
      have htn : (digitChar d).toNat = 48 + d := digitChar_toNat d hd
      exact ⟨digitChar d, tl2, hu, Or.inr (by omega)⟩
  obtain ⟨c, cs, hc, hr⟩ := hbound
  refine ⟨c, cs, hc, ?_, ?_, ?_, ?_, ?_, ?_, ?_⟩
  · exact isWs_eq_false _ (by omega) (by omega) (by omega) (by omega)
  · apply char_ne_of_toNat_ne
    have : ('n' : Char).toNat = 110 := rfl
    omega
  · apply char_ne_of_toNat_ne
    have : ('t' : Char).toNat = 116 := rfl
    omega
  · apply char_ne_of_toNat_ne
    have : ('f' : Char).toNat = 102 := rfl
    omega
  · apply char_ne_of_toNat_ne
    have : ('"' : Char).toNat = 34 := rfl
    omega
  · apply char_ne_of_toNat_ne
    have : ('[' : Char).toNat = 91 := rfl
    omega
  · apply char_ne_of_toNat_ne
    have : ('\x7b' : Char).toNat = 123 := rfl
    omega

/-- Skipping whitespace over the serialized elements of a non-empty
array stops at the head of the first value. -/
theorem skipWs_emitElems (v : JVal) (tl : JList) (lvl : Nat)
    (rest : List Char) : ∃ c cs,
    skipWs (emitElems (.cons v tl) lvl ++ rest) = c :: cs ∧
    isWs c = false ∧ c ≠ ']' ∧ c ≠ '\x7d' := by
  obtain ⟨c, cs, hh, hws, hbr, hbrace⟩ := emitV_head v (lvl + 1)
  refine ⟨c, cs ++ ((match tl with
    | JList.nil => '\n' :: (indentSp lvl ++ [']'])
    | JList.cons _ _ => ',' :: emitElems tl lvl) ++ rest), ?_, hws, hbr,
    hbrace⟩
  have hshape : emitElems (.cons v tl) lvl ++ rest =
      ('\n' :: indentSp (lvl + 1)) ++ (c :: (cs ++ ((match tl with
        | JList.nil => '\n' :: (indentSp lvl ++ [']'])
        | JList.cons _ _ => ',' :: emitElems tl lvl) ++ rest))) := by
    simp only [emitElems, List.cons_append, List.append_assoc, hh]
  rw [hshape, skipWs_allWs _ _ (allWsB_indent (lvl + 1)),
    skipWs_not_ws _ _ hws]

/-- Skipping whitespace over the serialized members of a non-empty
object stops at the opening quote of the first key. -/
theorem skipWs_emitMembs (k : String) (v : JVal) (tl : JObj) (lvl : Nat)
    (rest : List Char) : ∃ cs,
    skipWs (emitMembs (.cons k v tl) lvl ++ rest) = '"' :: cs := by
  refine ⟨(escStr k.data ++ ['"']) ++ ((':' :: ' ' ::
    (emitV v (lvl + 1) ++ (match tl with
      | JObj.nil => '\n' :: (indentSp lvl ++ ['\x7d'])
      | JObj.cons _ _ _ => ',' :: emitMembs tl lvl))) ++ rest), ?_⟩
  have hshape : emitMembs (.cons k v tl) lvl ++ rest =
      ('\n' :: indentSp (lvl + 1)) ++ ('"' :: ((escStr k.data ++ ['"']) ++
        ((':' :: ' ' :: (emitV v (lvl + 1) ++ (match tl with
          | JObj.nil => '\n' :: (indentSp lvl ++ ['\x7d'])
          | JObj.cons _ _ _ => ',' :: emitMembs tl lvl))) ++ rest))) := by
    simp only [emitMembs, quoteStr, List.cons_append, List.append_assoc]
  rw [hshape, skipWs_allWs _ _ (allWsB_indent (lvl + 1)),
    skipWs_not_ws _ _ (by decide)]

theorem parse_emit : ∀ fuel : Nat,
    (∀ v lvl pre rest, ndk v = true → jweight v ≤ fuel → allWsB pre = true →
      delimOk rest = true →
      pVal fuel (pre ++ (emitV v lvl ++ rest)) = some (v, rest)) ∧
    (∀ v tl lvl rest, ndk v = true → ndkl tl = true →
      jweightL (.cons v tl) ≤ fuel →
      pElems fuel (emitElems (.cons v tl) lvl ++ rest) =
        some (.cons v tl, rest)) ∧
    (∀ k v tl acc lvl rest, ndko (JObj.cons k v tl) = true →
      disjointKeys acc (.cons k v tl) = true →
      jweightO (.cons k v tl) ≤ fuel →
      pMembs fuel acc (emitMembs (.cons k v tl) lvl ++ rest) =
        some (objAppend acc (.cons k v tl), rest)) := by
  intro fuel
  induction fuel with
  | zero =>
    refine ⟨?_, ?_, ?_⟩
    · intro v lvl pre rest hn hw hpre hdel
      have := jweight_pos v
      omega
    · intro v tl lvl rest hn hnl hw
      simp only [jweightL] at hw
      have := jweight_pos v
      omega
    · intro k v tl acc lvl rest hn hd hw
      simp only [jweightO] at hw
      have := jweight_pos v
      omega
  | succ fuel ih =>
    obtain ⟨ihV, ihE, ihM⟩ := ih
    refine ⟨?_, ?_, ?_⟩
    · intro v lvl pre rest hn hw hpre hdel
      cases v with
      | null =>
        simp only [pVal]
        rw [skipWs_allWs _ _ hpre]
        rfl
      | bool b =>
        cases b <;> (simp only [pVal] ; rw [skipWs_allWs _ _ hpre] ; rfl)
      | num m e =>
        simp only [pVal]
        rw [skipWs_allWs _ _ hpre]
        obtain ⟨c, cs, hc, hws, hne1, hne2, hne3, hne4, hne5, hne6⟩ :=
          decStr_head m e
        have hemit : emitV (.num m e) lvl = decStr m e := rfl
        rw [hemit, hc, List.cons_append, skipWs_not_ws _ _ hws]
        dsimp only
        rw [if_neg hne1, if_neg hne2, if_neg hne3, if_neg hne4, if_neg hne5,
          if_neg hne6]
        rw [← List.cons_append, ← hc]
        exact pNum_decStr m e rest hdel
      | str s =>
        simp only [pVal]
        rw [skipWs_allWs _ _ hpre]
        have hemit : emitV (.str s) lvl ++ rest =
            '"' :: (escStr s.data ++ ('"' :: rest)) := by
          simp only [emitV, quoteStr, List.cons_append, List.append_assoc,
            List.singleton_append, List.nil_append]
        rw [hemit, skipWs_not_ws _ _ (by decide)]
        dsimp only
        rw [if_neg (by decide), if_neg (by decide), if_neg (by decide),
          if_pos rfl]
        rw [pStrBody_full s.data rest]
      | arr xs =>
        cases xs with
        | nil =>
          simp only [pVal]
          rw [skipWs_allWs _ _ hpre]
          rfl
        | cons v2 tl2 =>
          simp only [ndk, ndkl, Bool.and_eq_true] at hn
          simp only [jweight] at hw
          simp only [pVal]
          rw [skipWs_allWs _ _ hpre]
          have hemit : emitV (.arr (.cons v2 tl2)) lvl ++ rest =
              '[' :: (emitElems (.cons v2 tl2) lvl ++ rest) := by
            simp only [emitV, List.cons_append]
          rw [hemit, skipWs_not_ws _ _ (by decide)]
          dsimp only
          rw [if_neg (by decide), if_neg (by decide), if_neg (by decide),
            if_neg (by decide), if_pos rfl]
          obtain ⟨c, cs, hsk, hws, hbr, hbrace⟩ :=
            skipWs_emitElems v2 tl2 lvl rest
          rw [hsk]
          dsimp only
          rw [if_neg hbr]
          rw [ihE v2 tl2 lvl rest hn.1 hn.2 (by omega)]
      | obj kvs =>
        cases kvs with
        | nil =>
          simp only [pVal]
          rw [skipWs_allWs _ _ hpre]
          rfl
        | cons k2 v2 tl2 =>
          simp only [ndk] at hn
          simp only [jweight] at hw
          simp only [pVal]
          rw [skipWs_allWs _ _ hpre]
          have hemit : emitV (.obj (.cons k2 v2 tl2)) lvl ++ rest =
              '\x7b' :: (emitMembs (.cons k2 v2 tl2) lvl ++ rest) := by
            simp only [emitV, List.cons_append]
          rw [hemit, skipWs_not_ws _ _ (by decide)]
          dsimp only
          rw [if_neg (by decide), if_neg (by decide), if_neg (by decide),
            if_neg (by decide), if_neg (by decide), if_pos rfl]
          obtain ⟨cs, hsk⟩ := skipWs_emitMembs k2 v2 tl2 lvl rest
          rw [hsk]
          dsimp only
          rw [if_neg (by decide)]
          rw [ihM k2 v2 tl2 .nil lvl rest hn (disjointKeys_nil _)
            (by omega)]
          rfl
    · intro v tl lvl rest hn hnl hw
      simp only [jweightL] at hw
      have hwv := jweight_pos v
      cases tl with
      | nil =>
        simp only [pElems]
        have hcs : emitElems (.cons v .nil) lvl ++ rest =
            ('\n' :: indentSp (lvl + 1)) ++ (emitV v (lvl + 1) ++
              (('\n' :: (indentSp lvl ++ [']'])) ++ rest)) := by
          simp only [emitElems, List.cons_append, List.append_assoc]
        rw [hcs]
        rw [ihV v (lvl + 1) ('\n' :: indentSp (lvl + 1))
          (('\n' :: (indentSp lvl ++ [']'])) ++ rest) hn (by omega)
          (allWsB_indent _) (by rfl)]
        dsimp only
        have hsk : skipWs (('\n' :: (indentSp lvl ++ [']'])) ++ rest) =
            ']' :: rest := by
          have hsh : ('\n' :: (indentSp lvl ++ [']'])) ++ rest =
              ('\n' :: indentSp lvl) ++ (']' :: rest) := by
            simp only [List.cons_append, List.append_assoc,
              List.singleton_append, List.nil_append]
          rw [hsh, skipWs_allWs _ _ (allWsB_indent _),
            skipWs_not_ws _ _ (by decide)]
        rw [hsk]
        dsimp only
        rw [if_neg (by decide), if_pos rfl]
      | cons v2 tl2 =>
        simp only [ndkl, Bool.and_eq_true] at hnl
        simp only [pElems]
        have hcs : emitElems (.cons v (.cons v2 tl2)) lvl ++ rest =
            ('\n' :: indentSp (lvl + 1)) ++ (emitV v (lvl + 1) ++
              ((',' :: emitElems (.cons v2 tl2) lvl) ++ rest)) := by
          simp only [emitElems, List.cons_append, List.append_assoc]
        rw [hcs]
        rw [ihV v (lvl + 1) ('\n' :: indentSp (lvl + 1))
          ((',' :: emitElems (.cons v2 tl2) lvl) ++ rest) hn (by omega)
          (allWsB_indent _) (by rfl)]
        dsimp only
        rw [List.cons_append, skipWs_not_ws _ _ (by decide)]
        dsimp only
        rw [if_pos rfl]
        rw [ihE v2 tl2 lvl rest hnl.1 hnl.2
          (by simp only [jweightL] at hw ⊢ ; omega)]
    · intro k v tl acc lvl rest hn hd hw
      simp only [ndko, Bool.and_eq_true] at hn
      simp only [disjointKeys, Bool.and_eq_true] at hd
      simp only [jweightO] at hw
      have hwv := jweight_pos v
      cases tl with
      | nil =>
        simp only [pMembs]
        have hcs : emitMembs (.cons k v .nil) lvl ++ rest =
            ('\n' :: indentSp (lvl + 1)) ++ ('"' :: (escStr k.data ++
              ('"' :: (':' :: ' ' :: (emitV v (lvl + 1) ++
                (('\n' :: (indentSp lvl ++ ['\x7d'])) ++ rest)))))) := by
          simp only [emitMembs, quoteStr, List.cons_append, List.append_assoc,
            List.singleton_append, List.nil_append]
        rw [hcs, skipWs_allWs _ _ (allWsB_indent _),
          skipWs_not_ws _ _ (by decide)]
        dsimp only
        rw [if_pos rfl]
        rw [pStrBody_full k.data _]
        dsimp only
        rw [skipWs_not_ws _ _ (by decide)]
        dsimp only
        rw [if_pos rfl]
        rw [show (' ' :: (emitV v (lvl + 1) ++
            (('\n' :: (indentSp lvl ++ ['\x7d'])) ++ rest))) =
            [' '] ++ (emitV v (lvl + 1) ++
            (('\n' :: (indentSp lvl ++ ['\x7d'])) ++ rest)) from rfl]
        rw [ihV v (lvl + 1) [' '] _ hn.1.2 (by omega) (by decide) (by rfl)]
        dsimp only
        have hsk : skipWs (('\n' :: (indentSp lvl ++ ['\x7d'])) ++ rest) =
            '\x7d' :: rest := by
          have hsh : ('\n' :: (indentSp lvl ++ ['\x7d'])) ++ rest =
              ('\n' :: indentSp lvl) ++ ('\x7d' :: rest) := by
            simp only [List.cons_append, List.append_assoc,
              List.singleton_append, List.nil_append]
          rw [hsh, skipWs_allWs _ _ (allWsB_indent _),
            skipWs_not_ws _ _ (by decide)]
        rw [hsk]
        dsimp only
        rw [if_neg (by decide), if_pos rfl]
        rw [strMkData, objInsert_notIn acc k v hd.1]
      | cons k2 v2 tl2 =>
        simp only [pMembs]
        have hcs : emitMembs (.cons k v (.cons k2 v2 tl2)) lvl ++ rest =
            ('\n' :: indentSp (lvl + 1)) ++ ('"' :: (escStr k.data ++
              ('"' :: (':' :: ' ' :: (emitV v (lvl + 1) ++
                ((',' :: emitMembs (.cons k2 v2 tl2) lvl) ++ rest)))))) := by
          simp only [emitMembs, quoteStr, List.cons_append, List.append_assoc,
            List.singleton_append, List.nil_append]
        rw [hcs, skipWs_allWs _ _ (allWsB_indent _),
          skipWs_not_ws _ _ (by decide)]
        dsimp only
        rw [if_pos rfl]
        rw [pStrBody_full k.data _]
        dsimp only
        rw [skipWs_not_ws _ _ (by decide)]
        dsimp only
        rw [if_pos rfl]
        rw [show (' ' :: (emitV v (lvl + 1) ++
            ((',' :: emitMembs (.cons k2 v2 tl2) lvl) ++ rest))) =
            [' '] ++ (emitV v (lvl + 1) ++
            ((',' :: emitMembs (.cons k2 v2 tl2) lvl) ++ rest)) from rfl]
        rw [ihV v (lvl + 1) [' '] _ hn.1.2 (by omega) (by decide) (by rfl)]
        dsimp only
        rw [List.cons_append, skipWs_not_ws _ _ (by decide)]
        dsimp only
        rw [if_pos rfl]
        rw [strMkData, objInsert_notIn acc k v hd.1]
        rw [ihM k2 v2 tl2 (objAppend acc (.cons k v .nil)) lvl rest hn.2
          (disjointKeys_snoc (JObj.cons k2 v2 tl2) acc k v hd.2 hn.1.1)
          (by omega)]
        rw [objAppend_assoc]
        rfl

mutual

/-- The parse weight of a value is bounded by its serialized length. -/
theorem jweight_le_emitV : ∀ (v : JVal) (lvl : Nat),
    jweight v ≤ (emitV v lvl).length
  | .null, _ => by simp [jweight, emitV]
  | .bool b, _ => by cases b <;> simp [jweight, emitV]
  | .num m e, lvl => by
    obtain ⟨c, cs, hc, _, _, _, _, _, _, _⟩ := decStr_head m e
    have he : emitV (.num m e) lvl = decStr m e := rfl
    rw [he, hc]
    simp only [jweight, List.length_cons]
    omega
  | .str s, lvl => by
    simp only [jweight, emitV, quoteStr, List.length_cons,
      List.length_append]
    omega
  | .arr .nil, _ => by simp [jweight, jweightL, emitV]
  | .arr (.cons v tl), lvl => by
    have h := jweight_le_emitL (.cons v tl) lvl
    simp only [jweight, emitV, List.length_cons]
    omega
  | .obj .nil, _ => by simp [jweight, jweightO, emitV]
  | .obj (.cons k v tl), lvl => by
    have h := jweight_le_emitO (.cons k v tl) lvl
    simp only [jweight, emitV, List.length_cons]
    omega

/-- The parse weight of array elements is bounded by their serialized
length. -/
theorem jweight_le_emitL : ∀ (xs : JList) (lvl : Nat),
    jweightL xs ≤ (emitElems xs lvl).length
  | .nil, _ => by simp [jweightL]
  | .cons v .nil, lvl => by
    have hv := jweight_le_emitV v (lvl + 1)
    simp only [jweightL, emitElems, List.length_cons, List.length_append]
    omega
  | .cons v (.cons v2 tl2), lvl => by
    have hv := jweight_le_emitV v (lvl + 1)
    have ht := jweight_le_emitL (.cons v2 tl2) lvl
    simp only [jweightL, emitElems, List.length_cons, List.length_append]
      at ht ⊢
    omega

/-- The parse weight of object members is bounded by their serialized
length. -/
theorem jweight_le_emitO : ∀ (kvs : JObj) (lvl : Nat),
    jweightO kvs ≤ (emitMembs kvs lvl).length
  | .nil, _ => by simp [jweightO]
  | .cons k v .nil, lvl => by
    have hv := jweight_le_emitV v (lvl + 1)
    simp only [jweightO, emitMembs, quoteStr, List.length_cons,
      List.length_append]
    omega
  | .cons k v (.cons k2 v2 tl2), lvl => by
    have hv := jweight_le_emitV v (lvl + 1)
    have ht := jweight_le_emitO (.cons k2 v2 tl2) lvl
    simp only [jweightO, emitMembs, quoteStr, List.length_cons,
      List.length_append] at ht ⊢
    omega

end

/-- Re-parsing the two-space-indented serialization of any document
without duplicate keys recovers the document itself. -/
theorem parse_dumps (d : JVal) (h : ndk d = true) :
    parseJson (dumps d) = some d := by
  unfold parseJson dumps
  have hw : jweight d ≤ (emitV d 0).length + 1 := by
    have := jweight_le_emitV d 0
    omega
  have hV := (parse_emit ((emitV d 0).length + 1)).1 d 0 [] [] h hw rfl rfl
  rw [List.nil_append, List.append_nil] at hV
  dsimp only
  rw [hV]
  rfl

/-- Inserting a different key preserves the absence of a key. -/
theorem keysNotIn_objInsert : ∀ (acc : JObj) (x k : String) (v : JVal),
    keysNotIn x acc = true → x ≠ k →
    keysNotIn x (objInsert acc k v) = true
  | .nil, x, k, v, _, hne => by
    simp only [objInsert, keysNotIn]
    rw [if_neg (fun e => hne e.symm)]
  | .cons k0 v0 tl, x, k, v, h, hne => by
    simp only [keysNotIn] at h
    simp only [objInsert]
    split
    · simp only [keysNotIn]
      split at h
      · exact absurd h (by simp)
      · rw [if_neg (by assumption)]
        exact h
    · simp only [keysNotIn]
      split at h
      · exact absurd h (by simp)
      · rw [if_neg (by assumption)]
        exact keysNotIn_objInsert tl x k v h hne

/-- Insertion as the dict builder performs it preserves pairwise-distinct
keys. -/
theorem ndko_objInsert : ∀ (acc : JObj) (k : String) (v : JVal),
    ndko acc = true → ndk v = true → ndko (objInsert acc k v) = true
  | .nil, k, v, _, hv => by
    simp [objInsert, ndko, keysNotIn, hv]
  | .cons k0 v0 tl, k, v, h, hv => by
    simp only [ndko, Bool.and_eq_true] at h
    simp only [objInsert]
    split
    · simp only [ndko, Bool.and_eq_true]
      exact ⟨⟨h.1.1, hv⟩, h.2⟩
    · simp only [ndko, Bool.and_eq_true]
      refine ⟨⟨keysNotIn_objInsert tl k0 k v h.1.1 (by
        intro e
        subst e
        simp_all), h.1.2⟩, ndko_objInsert tl k v h.2 hv⟩

/-- A parsed number token carries no objects at all. -/
theorem pNum_ndk (cs : List Char) (v : JVal) (r : List Char)
    (h : pNum cs = some (v, r)) : ndk v = true := by
  unfold pNum at h
  repeat' split at h
  all_goals simp_all
  all_goals (obtain ⟨hv, -⟩ := h ; rw [← hv] ; rfl)

theorem parse_ndk : ∀ fuel : Nat,
    (∀ cs v r, pVal fuel cs = some (v, r) → ndk v = true) ∧
    (∀ cs xs r, pElems fuel cs = some (xs, r) → ndkl xs = true) ∧
    (∀ acc cs kvs r, ndko acc = true →
      pMembs fuel acc cs = some (kvs, r) → ndko kvs = true) := by
  intro fuel
  induction fuel with
  | zero =>
    refine ⟨?_, ?_, ?_⟩
    · intro cs v r h
      rw [show pVal 0 cs = none from rfl] at h
      cases h
    · intro cs xs r h
      rw [show pElems 0 cs = none from rfl] at h
      cases h
    · intro acc cs kvs r _ h
      rw [show pMembs 0 acc cs = none from rfl] at h
      cases h
  | succ fuel ih =>
    obtain ⟨ihV, ihE, ihM⟩ := ih
    refine ⟨?_, ?_, ?_⟩
    · intro cs v r h
      simp only [pVal] at h
      repeat' split at h
      all_goals try cases h
      all_goals try rfl
      all_goals try (simp only [ndk] ; exact ihE _ _ _ (by assumption))
      all_goals try (simp only [ndk] ; exact ihM JObj.nil _ _ _ rfl (by assumption))
      all_goals exact pNum_ndk _ _ _ h
    · intro cs xs r h
      simp only [pElems] at h
      repeat' split at h
      all_goals try cases h
      all_goals simp only [ndkl, Bool.and_eq_true]
      all_goals refine ⟨ihV _ _ _ (by assumption), ?_⟩
      all_goals first
        | exact ihE _ _ _ (by assumption)
        | trivial
    · intro acc cs kvs r hacc h
      simp only [pMembs] at h
      repeat' split at h
      all_goals try cases h
      all_goals first
        | exact ndko_objInsert acc _ _ hacc (ihV _ _ _ (by assumption))
        | exact ihM _ _ _ _ (ndko_objInsert acc _ _ hacc (ihV _ _ _ (by assumption))) h

/-- Every document the loader produces has pairwise-distinct keys in
every object (the dict builder collapses duplicates on the way in). -/
theorem parseJson_ndk (s : String) (d : JVal) (h : parseJson s = some d) :
    ndk d = true := by
  unfold parseJson at h
  repeat' split at h
  · cases h
    exact (parse_ndk _).1 _ _ _ (by assumption)
  · cases h
  · cases h

/-- A small document with a fractional number and an escaped-space-free
string, exercising the export round trip. -/
def docRound : JVal :=
  .obj (.cons "a" (.num 15 1) (.cons "b" (.str "x y") .nil))

/-- The source text `docRound` is loaded from. -/
def srcRound : String := "\x7b\"a\": 1.5, \"b\": \"x y\"\x7d"

/-- The page rendered for `docRound`. -/
def pageRound : Page := (renderPage docRound "T").toOption.getD emptyPage

/-- C6: the JSON export round-trips — for every document obtained by
parsing an upload, re-parsing the exported two-space-indented
serialization yields the identical document, and the export is offered
under the filename formed from the resolved company name with spaces
replaced by underscores followed by `_analysis.json`. -/
theorem c6_json_roundtrip (d : JVal) (now : String) (page : Page)
    (company : String) (src : String)
    (hsrc : parseJson src = some d)
    (hc : resolve_company_name d "Unknown" = .ok company)
    (hp : renderPage d now = .ok page) :
    parseJson page.jsonContent = some d ∧
    page.jsonName = underscoreSpaces company ++ "_analysis.json" := by
  have hndk := parseJson_ndk src d hsrc
  simp only [renderPage, ebind] at hp
  rcases h1 : detect_schema_version d with e1 | ver <;> rw [h1] at hp <;>
    (try dsimp only at hp)
  · simp at hp
  rw [hc] at hp
  dsimp only at hp
  rcases h3 : pyGet d "report_info" (.obj .nil) with e3 | r <;>
    rw [h3] at hp <;> (try dsimp only at hp)
  · simp at hp
  rcases h4 : pyGet r "period_start" (.str "") with e4 | ps <;>
    rw [h4] at hp <;> (try dsimp only at hp)
  · simp at hp
  rcases h5 : pyGet r "period_end" (.str "") with e5 | pe <;>
    rw [h5] at hp <;> (try dsimp only at hp)
  · simp at hp
  rcases h6 : pyGet r "total_months" (.num 0 0) with e6 | tm <;>
    rw [h6] at hp <;> (try dsimp only at hp)
  · simp at hp
  rcases h7 : summaryMetrics d with e7 | mets <;> rw [h7] at hp <;>
    (try dsimp only at hp)
  · simp at hp
  rcases h8 : generate_interactive_html d now with e8 | html <;>
    rw [h8] at hp <;> (try dsimp only at hp)
  · simp at hp
  simp only [Except.ok.injEq] at hp
  subst hp
  exact ⟨parse_dumps d hndk, rfl⟩

/-- Witness for C6 at a concrete two-field document. -/
theorem c6_json_roundtrip_witness :
    parseJson srcRound = some docRound ∧
    resolve_company_name docRound "Unknown" = .ok "Unknown" ∧
    renderPage docRound "T" = .ok pageRound ∧
    parseJson pageRound.jsonContent = some docRound ∧
    pageRound.jsonName = underscoreSpaces "Unknown" ++ "_analysis.json" :=
  ⟨rfl, rfl, rfl,
    (c6_json_roundtrip docRound "T" pageRound "Unknown" srcRound rfl rfl
      rfl).1,
    (c6_json_roundtrip docRound "T" pageRound "Unknown" srcRound rfl rfl
      rfl).2⟩
